import Mathlib

/-!
Shallow embedding of the workflow-react-challenge core:
`src/utils/validation.ts`, `src/utils/getReachableFields.ts` and
`src/hooks/useAutoSave.ts`.

JavaScript strings become `String`; values that may be `undefined`/`null`
become `Option String` (with JS truthiness: the only falsy string is `""`).
Node `data` is the union of the per-type data shapes (each validator reads
only its own keys, mirroring the unchecked `as` casts in the source);
function-valued entries of `data` (stripped by `areWorkflowsEqual`'s
serializer) are modelled by a list of abstract key names `dataFns` that the
serialized projection drops.
-/

namespace Workflow

/-- `position: {x, y}` of a node (opaque to the core; compared by
`areWorkflowsEqual`). -/
structure Position where
  x : Int
  y : Int
deriving DecidableEq, Repr

/-- A Form field (`FormNodeData` field entry). -/
structure Field where
  id : String
  name : String
  label : String
  type : String
  required : Bool
  options : Option (List String)
deriving DecidableEq, Repr

/-- Union of the per-node-type `data` shapes read by the validators and the
structure checks. Absent keys are `none`. -/
structure NodeData where
  label : Option String := none
  customName : Option String := none
  fields : Option (List Field) := none
  fieldToEvaluate : Option String := none
  operator : Option String := none
  value : Option String := none
  url : Option String := none
  method : Option String := none
deriving DecidableEq, Repr

/-- A workflow node (`@xyflow/react` `Node` as used by the core).
`dataFns` stands for the function-valued entries that may be attached to
`data` by the UI (they are not serializable and are stripped before
content comparison). -/
structure Node where
  id : String
  type : String
  position : Position
  data : NodeData
  dataFns : List String := []
deriving DecidableEq, Repr

/-- A workflow edge (`@xyflow/react` `Edge` as used by the core). -/
structure Edge where
  id : String
  source : String
  target : String
  sourceHandle : Option String := none
  targetHandle : Option String := none
  label : Option String := none
deriving DecidableEq, Repr

/-- `ValidationError` from `src/utils/validation.ts` (`type` is always the
literal `'error'` in the source and is kept as a field). -/
structure ValidationError where
  id : String
  type : String
  message : String
  nodeId : Option String
  field : Option String
deriving DecidableEq, Repr

/-- `ValidationResult` from `src/utils/validation.ts`. -/
structure ValidationResult where
  isValid : Bool
  errors : List ValidationError
deriving DecidableEq, Repr

/-! ### Helper predicates (`validation.ts` lines 19-35) -/

/-- A JavaScript WhiteSpace or LineTerminator character (the set stripped
by `String.prototype.trim`). -/
def isJsWhitespace (c : Char) : Bool :=
  c.val = 0x9 || c.val = 0xa || c.val = 0xb || c.val = 0xc || c.val = 0xd ||
    c.val = 0x20 || c.val = 0xa0 || c.val = 0x1680 ||
    (0x2000 ≤ c.val && c.val ≤ 0x200a) ||
    c.val = 0x2028 || c.val = 0x2029 || c.val = 0x202f || c.val = 0x205f ||
    c.val = 0x3000 || c.val = 0xfeff

/-- `value.trim()` (JS semantics) on the character list. -/
def trimChars (l : List Char) : List Char :=
  ((l.dropWhile isJsWhitespace).reverse.dropWhile isJsWhitespace).reverse

/-- `value.trim()` (JS semantics). -/
def jsTrim (s : String) : String :=
  ⟨trimChars s.data⟩

/-- `isEmpty(value)`: `!value || value.trim() === ''`. The only falsy
string is `""`, whose trim is also `""`, so for a present string this is
just the trim test. -/
def isEmpty : Option String → Bool
  | none => true
  | some s => jsTrim s = ""

/-- `meetsMinLength(value, minLength)`: `!!value && value.trim().length >= minLength`. -/
def meetsMinLength (value : Option String) (minLength : Nat) : Bool :=
  match value with
  | none => false
  | some s => s ≠ "" && minLength ≤ (trimChars s.data).length

/-- `/^[a-zA-Z0-9]+$/.test(value)`. -/
def isAlphanumericChar (c : Char) : Bool :=
  ('a' ≤ c && c ≤ 'z') || ('A' ≤ c && c ≤ 'Z') || ('0' ≤ c && c ≤ '9')

/-- `isAlphanumeric(value)`: the regex `^[a-zA-Z0-9]+$` demands a nonempty
all-alphanumeric string. -/
def isAlphanumeric (value : String) : Bool :=
  value ≠ "" && value.data.all isAlphanumericChar

/-- A JavaScript line terminator (not matched by `.` in a regex without the
`s` flag). -/
def isJsLineTerminator (c : Char) : Bool :=
  c = '\n' || c = '\r' || c.val = 0x2028 || c.val = 0x2029

/-- `.+` after the scheme: at least one character, the first not a line
terminator (the regex has no `$` anchor). -/
def matchesDotPlus (rest : List Char) : Bool :=
  match rest with
  | [] => false
  | c :: _ => !isJsLineTerminator c

/-- `/^https?:\/\/.+/.test(url.trim())`, with `!url` short-circuiting to
false. -/
def isValidUrl : Option String → Bool
  | none => false
  | some url =>
    if url = "" then false
    else
      let t := trimChars url.data
      ("http://".data.isPrefixOf t && matchesDotPlus (t.drop 7)) ||
        ("https://".data.isPrefixOf t && matchesDotPlus (t.drop 8))

/-- JS string-interpolation of `a || b` (used in route-error messages):
returns `a` when truthy, else the interpolation of `b` (`undefined` prints
as `"undefined"`). -/
def jsOrLabel (a b : Option String) : String :=
  match a with
  | some s => if s ≠ "" then s else (match b with | some l => l | none => "undefined")
  | none => (match b with | some l => l | none => "undefined")

/-- JS `a || b || c` over strings with string result (used for node display
names, where the final alternative is always a truthy literal). -/
def strOr (v : Option String) (dflt : String) : String :=
  match v with
  | some s => if s ≠ "" then s else dflt
  | none => dflt

/-! ### Per-node validators (`validation.ts` lines 43-235) -/

/-- Errors for one Form field (body of the `data.fields.forEach` loop,
`validation.ts` lines 77-123); `index` is the 0-based loop index used in
the messages. -/
def validateFormField (nodeId : String) (index : Nat) (f : Field) : List ValidationError :=
  let nameErrors : List ValidationError :=
    if isEmpty (some f.name) then
      [⟨nodeId ++ "-field-" ++ f.id ++ "-name-required", "error",
        "Field " ++ toString (index + 1) ++ ": Name is required",
        some nodeId, some ("field-" ++ f.id ++ "-name")⟩]
    else if !isAlphanumeric f.name then
      [⟨nodeId ++ "-field-" ++ f.id ++ "-name-alphanumeric", "error",
        "Field " ++ toString (index + 1) ++ ": Name must be alphanumeric (no spaces)",
        some nodeId, some ("field-" ++ f.id ++ "-name")⟩]
    else if !meetsMinLength (some f.name) 2 then
      [⟨nodeId ++ "-field-" ++ f.id ++ "-name-minLength", "error",
        "Field " ++ toString (index + 1) ++ ": Name must be at least 2 characters",
        some nodeId, some ("field-" ++ f.id ++ "-name")⟩]
    else []
  let labelErrors : List ValidationError :=
    if isEmpty (some f.label) then
      [⟨nodeId ++ "-field-" ++ f.id ++ "-label-required", "error",
        "Field " ++ toString (index + 1) ++ ": Label is required",
        some nodeId, some ("field-" ++ f.id ++ "-label")⟩]
    else if !meetsMinLength (some f.label) 2 then
      [⟨nodeId ++ "-field-" ++ f.id ++ "-label-minLength", "error",
        "Field " ++ toString (index + 1) ++ ": Label must be at least 2 characters",
        some nodeId, some ("field-" ++ f.id ++ "-label")⟩]
    else []
  nameErrors ++ labelErrors

/-- `validateFormNode` (`validation.ts` lines 43-127). -/
def validateFormNode (node : Node) : List ValidationError :=
  let data := node.data
  let customNameErrors : List ValidationError :=
    if isEmpty data.customName then
      [⟨node.id ++ "-customName-required", "error", "Form name is required",
        some node.id, some "customName"⟩]
    else if !meetsMinLength data.customName 3 then
      [⟨node.id ++ "-customName-minLength", "error",
        "Form name must be at least 3 characters", some node.id, some "customName"⟩]
    else []
  let fieldsErrors : List ValidationError :=
    match data.fields with
    | none =>
      [⟨node.id ++ "-fields-empty", "error", "Form must have at least one field",
        some node.id, some "fields"⟩]
    | some fields =>
      if fields.length = 0 then
        [⟨node.id ++ "-fields-empty", "error", "Form must have at least one field",
          some node.id, some "fields"⟩]
      else
        fields.enum.bind (fun p => validateFormField node.id p.1 p.2)
  customNameErrors ++ fieldsErrors

/-- `validateConditionalNode` (`validation.ts` lines 136-193). -/
def validateConditionalNode (node : Node) : List ValidationError :=
  let data := node.data
  let customNameErrors : List ValidationError :=
    if isEmpty data.customName then
      [⟨node.id ++ "-customName-required", "error", "Condition name is required",
        some node.id, some "customName"⟩]
    else if !meetsMinLength data.customName 3 then
      [⟨node.id ++ "-customName-minLength", "error",
        "Condition name must be at least 3 characters", some node.id, some "customName"⟩]
    else []
  let fieldErrors : List ValidationError :=
    if isEmpty data.fieldToEvaluate then
      [⟨node.id ++ "-fieldToEvaluate-required", "error", "Field to evaluate is required",
        some node.id, some "fieldToEvaluate"⟩]
    else []
  let operatorErrors : List ValidationError :=
    if data.operator = none || data.operator = some "" then
      [⟨node.id ++ "-operator-required", "error", "Operator is required",
        some node.id, some "operator"⟩]
    else []
  let valueErrors : List ValidationError :=
    if data.operator ≠ some "is_empty" && isEmpty data.value then
      [⟨node.id ++ "-value-required", "error", "Value is required for this operator",
        some node.id, some "value"⟩]
    else []
  customNameErrors ++ fieldErrors ++ operatorErrors ++ valueErrors

/-- `validateApiNode` (`validation.ts` lines 200-235). -/
def validateApiNode (node : Node) : List ValidationError :=
  let data := node.data
  let urlErrors : List ValidationError :=
    if isEmpty data.url then
      [⟨node.id ++ "-url-required", "error", "API URL is required",
        some node.id, some "url"⟩]
    else if !isValidUrl data.url then
      [⟨node.id ++ "-url-invalid", "error", "URL must start with http:// or https://",
        some node.id, some "url"⟩]
    else []
  let methodErrors : List ValidationError :=
    if data.method = none || data.method = some "" then
      [⟨node.id ++ "-method-required", "error", "HTTP method is required",
        some node.id, some "method"⟩]
    else []
  urlErrors ++ methodErrors

/-! ### Breadth-first traversal (shared shape of the `while (queue.length > 0)`
loops in `validateWorkflowStructure` and `getReachableFields`).

The JS loops mutate a `Set` (insertion-ordered) and an array queue; here the
visited set is an insertion-ordered `List String` and the loop takes explicit
fuel. Both call sites use fuel `edges.length + 1`, which is proved sufficient
below (each iteration pops one queue entry, and every push is guarded by the
visited set, so there are at most `1 + edges.length` iterations). -/

/-- Body of the inner `forEach` over the neighbor ids of the dequeued node:
skip ids already in the visited list, otherwise append to both the visited
list and (the tail of) the queue. Returns (new visited, newly pushed ids). -/
def enqueueNew (visited : List String) : List String → List String × List String
  | [] => (visited, [])
  | t :: ts =>
    if visited.contains t then enqueueNew visited ts
    else
      let r := enqueueNew (visited ++ [t]) ts
      (r.1, t :: r.2)

/-- The `while (queue.length > 0)` loop: dequeue, look up neighbor ids,
enqueue the unvisited ones. `next` abstracts the direction of traversal. -/
def bfsAux (next : String → List String) : Nat → List String → List String → List String
  | 0, _, visited => visited
  | _ + 1, [], visited => visited
  | fuel + 1, currentId :: rest, visited =>
    let r := enqueueNew visited (next currentId)
    bfsAux next fuel (rest ++ r.2) r.1

/-- Forward neighbors: `edges.filter(e => e.source === currentId)` traversed
to their targets (`validateWorkflowStructure` lines 360-367). -/
def fwdNeighbors (edges : List Edge) (currentId : String) : List String :=
  (edges.filter (fun e => e.source == currentId)).map (·.target)

/-- Backward neighbors: `edges.filter(e => e.target === currentId)` traversed
to their sources (`getReachableFields` lines 184-191). -/
def backNeighbors (edges : List Edge) (currentId : String) : List String :=
  (edges.filter (fun e => e.target == currentId)).map (·.source)

/-- The number of ids of the candidate list `U` not yet in the visited list
(the decreasing part of the loop measure of the BFS loops). -/
def countFresh (U visited : List String) : Nat :=
  (U.filter (fun u => !visited.contains u)).length

/-- There is an edge from `a` to `b` in the edge list (the single-step
reachability relation of the workflow graph). -/
def EdgeStep (edges : List Edge) (a b : String) : Prop :=
  ∃ e ∈ edges, e.source = a ∧ e.target = b

/-- The reachable-node set of `validateWorkflowStructure` (lines 354-368):
forward BFS from the Start node, with the Start id pre-seeded into both the
set and the queue. -/
def reachableFromStart (edges : List Edge) (startId : String) : List String :=
  bfsAux (fwdNeighbors edges) (edges.length + 1) [startId] [startId]

/-- The backward-reachable ancestor ids of `getReachableFields`
(lines 178-192): backward BFS seeded with the target id in the queue but
NOT in the visited set. -/
def backwardReachableIds (edges : List Edge) (nodeId : String) : List String :=
  bfsAux (backNeighbors edges) (edges.length + 1) [nodeId] []

/-- The "not reachable from Start" error for one node
(`validateWorkflowStructure` lines 371-381). -/
def mkNotReachableError (node : Node) : ValidationError :=
  ⟨node.id ++ "-not-reachable", "error",
    "\"" ++ strOr node.data.customName (strOr node.data.label (node.type ++ " node")) ++
      "\" is not reachable from Start block",
    some node.id, none⟩

/-- Route-completeness errors for one Conditional node
(`validateWorkflowStructure` lines 301-324). -/
def conditionalRouteErrors (edges : List Edge) (node : Node) : List ValidationError :=
  let trueEdge := edges.find? (fun e => e.source == node.id && e.sourceHandle == some "true")
  let falseEdge := edges.find? (fun e => e.source == node.id && e.sourceHandle == some "false")
  let trueErrors : List ValidationError :=
    if trueEdge = none then
      [⟨node.id ++ "-route-true-missing", "error",
        "Conditional \"" ++ jsOrLabel node.data.customName node.data.label ++
          "\" is missing TRUE route connection",
        some node.id, none⟩]
    else []
  let falseErrors : List ValidationError :=
    if falseEdge = none then
      [⟨node.id ++ "-route-false-missing", "error",
        "Conditional \"" ++ jsOrLabel node.data.customName node.data.label ++
          "\" is missing FALSE route connection",
        some node.id, none⟩]
    else []
  trueErrors ++ falseErrors

/-- "Start block has no outgoing connections" (`validateWorkflowStructure`
lines 332-340). -/
def startNoOutgoingErrors (nodes : List Node) (edges : List Edge)
    (startNode : Node) : List ValidationError :=
  let startHasOutgoing := edges.any (fun e => e.source == startNode.id)
  if !startHasOutgoing && nodes.length > 1 then
    [⟨"workflow-start-no-outgoing", "error", "Start block has no outgoing connections",
      some startNode.id, none⟩]
  else []

/-- "End block has no incoming connections" (`validateWorkflowStructure`
lines 343-351). -/
def endNoIncomingErrors (nodes : List Node) (edges : List Edge)
    (endNode : Node) : List ValidationError :=
  let endHasIncoming := edges.any (fun e => e.target == endNode.id)
  if !endHasIncoming && nodes.length > 1 then
    [⟨"workflow-end-no-incoming", "error", "End block has no incoming connections",
      some endNode.id, none⟩]
  else []

/-- The "not reachable from Start" loop (`validateWorkflowStructure` lines
353-381): one error per node outside the BFS-reachable set, the Start node
excepted. -/
def orphanErrors (nodes : List Node) (edges : List Edge)
    (startNode : Node) : List ValidationError :=
  let reachableNodes := reachableFromStart edges startNode.id
  nodes.bind (fun node =>
    if !reachableNodes.contains node.id && node.id ≠ startNode.id then
      [mkNotReachableError node]
    else [])

/-- Connectivity errors (`validateWorkflowStructure` lines 327-382), only
computed when there is exactly one Start and one End node. -/
def connectivityErrors (nodes : List Node) (edges : List Edge)
    (startNode endNode : Node) : List ValidationError :=
  startNoOutgoingErrors nodes edges startNode ++
    endNoIncomingErrors nodes edges endNode ++
    orphanErrors nodes edges startNode

/-- The "no work nodes" check (`validateWorkflowStructure` lines 253-267). -/
def workNodePresenceErrors (nodes : List Node) : List ValidationError :=
  let startNodes := nodes.filter (fun n => n.type == "start")
  let endNodes := nodes.filter (fun n => n.type == "end")
  let workNodes := nodes.filter (fun n => n.type ≠ "start" && n.type ≠ "end")
  if nodes.length > 0 && startNodes.length = 1 && endNodes.length = 1 &&
      workNodes.length = 0 then
    [⟨"workflow-no-work-nodes", "error",
      "Workflow must contain at least one Form, API, or Conditional block between Start and End",
      none, none⟩]
  else []

/-- The exactly-one-Start check (`validateWorkflowStructure` lines 270-282). -/
def startCountErrors (nodes : List Node) : List ValidationError :=
  let startNodes := nodes.filter (fun n => n.type == "start")
  if startNodes.length = 0 then
    [⟨"workflow-no-start", "error", "Workflow must have exactly one Start block",
      none, none⟩]
  else if startNodes.length > 1 then
    [⟨"workflow-multiple-starts", "error",
      "Workflow has " ++ toString startNodes.length ++
        " Start blocks, but must have exactly one",
      none, none⟩]
  else []

/-- The exactly-one-End check (`validateWorkflowStructure` lines 285-297). -/
def endCountErrors (nodes : List Node) : List ValidationError :=
  let endNodes := nodes.filter (fun n => n.type == "end")
  if endNodes.length = 0 then
    [⟨"workflow-no-end", "error", "Workflow must have exactly one End block",
      none, none⟩]
  else if endNodes.length > 1 then
    [⟨"workflow-multiple-ends", "error",
      "Workflow has " ++ toString endNodes.length ++
        " End blocks, but must have exactly one",
      none, none⟩]
  else []

/-- `validateWorkflowStructure` (`validation.ts` lines 246-385): the checks
in source order — work-node presence, Start count, End count, conditional
routes, then connectivity (the latter only when exactly one Start and one
End exist). -/
def validateWorkflowStructure (nodes : List Node) (edges : List Edge) : List ValidationError :=
  let startNodes := nodes.filter (fun n => n.type == "start")
  let endNodes := nodes.filter (fun n => n.type == "end")
  let conditionalNodes := nodes.filter (fun n => n.type == "conditional")
  let routeErrors := conditionalNodes.bind (conditionalRouteErrors edges)
  let connErrors : List ValidationError :=
    match startNodes, endNodes with
    | [startNode], [endNode] => connectivityErrors nodes edges startNode endNode
    | _, _ => []
  workNodePresenceErrors nodes ++ startCountErrors nodes ++ endCountErrors nodes ++
    routeErrors ++ connErrors

/-- `validateWorkflow` (`validation.ts` lines 390-418): per-node errors in
node order (switch on `node.type`), then structural errors. -/
def validateWorkflow (nodes : List Node) (edges : List Edge) : ValidationResult :=
  let perNodeErrors := nodes.bind (fun node =>
    match node.type with
    | "form" => validateFormNode node
    | "conditional" => validateConditionalNode node
    | "api" => validateApiNode node
    | _ => [])
  let allErrors := perNodeErrors ++ validateWorkflowStructure nodes edges
  ⟨allErrors.length = 0, allErrors⟩

/-! ### `getReachableFields` (`src/utils/getReachableFields.ts`) -/

/-- The field-name collection loop (`getReachableFields.ts` lines 194-208):
iterate the visited ids in insertion order, look up the node by id, and for
Form nodes append each truthy field name not already collected. -/
def collectFieldNames (nodes : List Node) (ids : List String) : List String :=
  ids.foldl (fun fieldNames id =>
    match nodes.find? (fun n => n.id == id) with
    | some node =>
      if node.type == "form" then
        match node.data.fields with
        | some fields =>
          fields.foldl (fun acc f =>
            if f.name ≠ "" && !acc.contains f.name then acc ++ [f.name] else acc)
            fieldNames
        | none => fieldNames
      else fieldNames
    | none => fieldNames) []

/-- `getReachableFields(nodeId, nodes, edges)`. -/
def getReachableFields (nodeId : String) (nodes : List Node) (edges : List Edge) :
    List String :=
  collectFieldNames nodes (backwardReachableIds edges nodeId)

/-! ### Auto-Save Controller (`src/hooks/useAutoSave.ts`)

Timestamps (`new Date().toISOString()`) are abstract strings supplied by the
environment. The persisted record under the `"workflow-autosave"` key is
modelled as `Option SavedWorkflowData` (the hook itself only ever writes
well-shaped records; `loadSavedWorkflow`'s raw-JSON guard is modelled
separately below for the loader claims). -/

/-- `SaveStatus` from `useAutoSave.ts`. -/
inductive SaveStatus where
  | idle | saving | saved | error
deriving DecidableEq, Repr

/-- `SavedWorkflowData` from `useAutoSave.ts`. -/
structure SavedWorkflowData where
  nodes : List Node
  edges : List Edge
  timestamp : String
deriving DecidableEq, Repr

/-- The per-node projection serialized by `areWorkflowsEqual`:
`{id, type, position, data}` with function-valued entries of `data` removed
(dropping `dataFns` in this model). -/
structure SerializedNode where
  id : String
  type : String
  position : Position
  data : NodeData
deriving DecidableEq, Repr

/-- The per-edge projection serialized by `areWorkflowsEqual`:
`{id, source, target, sourceHandle, targetHandle, label}`. -/
structure SerializedEdge where
  id : String
  source : String
  target : String
  sourceHandle : Option String
  targetHandle : Option String
  label : Option String
deriving DecidableEq, Repr

/-- The `serialize` closure of `areWorkflowsEqual`: `JSON.stringify` of the
projected nodes and edges, modelled as the projected structures themselves
(the serializer visits a fixed key set in a fixed order, so string equality
of the JSON coincides with structural equality of the projections). -/
def serializeWorkflow (nodes : List Node) (edges : List Edge) :
    List SerializedNode × List SerializedEdge :=
  (nodes.map (fun n => ⟨n.id, n.type, n.position, n.data⟩),
   edges.map (fun e => ⟨e.id, e.source, e.target, e.sourceHandle, e.targetHandle, e.label⟩))

/-- `areWorkflowsEqual` (`useAutoSave.ts` lines 147-176). -/
def areWorkflowsEqual (nodes1 : List Node) (edges1 : List Edge)
    (nodes2 : List Node) (edges2 : List Edge) : Bool :=
  if nodes1.length ≠ nodes2.length || edges1.length ≠ edges2.length then false
  else serializeWorkflow nodes1 edges1 = serializeWorkflow nodes2 edges2

/-- The state owned by one `useAutoSave` instance together with the storage
slot it reads and writes: React state `saveStatus`/`lastSaved`, the pending
debounced write (`saveTimeoutRef` plus the snapshot the timeout will read
through `nodesRef`/`edgesRef` when it fires), and the persisted record. -/
structure AutoSaveState where
  saveStatus : SaveStatus
  lastSaved : Option String
  pending : Option (List Node × List Edge)
  store : Option SavedWorkflowData
deriving DecidableEq, Repr

/-- One stimulus to the Auto-Save Controller: a changed input snapshot
(re-running the effect), the debounce timer firing (with the storage write
succeeding or throwing), or `clearSaved` being invoked (with the storage
removal succeeding or throwing). -/
inductive AutoSaveEvent where
  | input (nodes : List Node) (edges : List Edge) (isValid : Bool)
  | fire (writeOk : Bool) (now : String)
  | clear (removeOk : Bool)
deriving DecidableEq, Repr

/-- One step of the Auto-Save Controller (`useAutoSave.ts` lines 189-234 for
the effect, 212-227 for the timeout body, 236-244 for `clearSaved`).

The effect first clears any pending timeout; if `isValid` is false it sets
status `error` and returns; otherwise it loads the persisted record, short-
circuits to `saved` (with the record's timestamp) on content equality, and
otherwise sets `saving` and schedules the debounced write. The timeout body
writes `{nodes, edges, timestamp: now}` from the refs (which hold the
snapshot of the effect run that scheduled it) and sets `saved`/`error`; a
cancelled timer never fires (`pending = none`). `clearSaved` removes the
record and resets state, or leaves everything unchanged if removal throws. -/
def autoSaveStep : AutoSaveEvent → AutoSaveState → AutoSaveState
  | .input nodes edges isValid, s =>
    if !isValid then
      { s with pending := none, saveStatus := .error }
    else
      match s.store with
      | some existingSaved =>
        if areWorkflowsEqual nodes edges existingSaved.nodes existingSaved.edges then
          { s with pending := none, saveStatus := .saved,
                   lastSaved := some existingSaved.timestamp }
        else
          { s with pending := some (nodes, edges), saveStatus := .saving }
      | none =>
        { s with pending := some (nodes, edges), saveStatus := .saving }
  | .fire writeOk now, s =>
    match s.pending with
    | none => s
    | some (nodes, edges) =>
      if writeOk then
        { s with pending := none, saveStatus := .saved, lastSaved := some now,
                 store := some ⟨nodes, edges, now⟩ }
      else
        { s with pending := none, saveStatus := .error }
  | .clear removeOk, s =>
    if removeOk then
      { s with store := none, lastSaved := none, saveStatus := .idle }
    else s

/-- A run of the controller over a sequence of events. -/
def runAutoSave (events : List AutoSaveEvent) (s : AutoSaveState) : AutoSaveState :=
  events.foldl (fun st ev => autoSaveStep ev st) s

/-! ### Saved-Workflow Loader/Guard (`loadSavedWorkflow`, `useAutoSave.ts`
lines 253-272)

The guard runs on the raw stored string, so the model keeps the JSON layer:
`JSON.parse` output is a `Json` tree, and the three possible read outcomes
(absent/falsy raw value, parse throw, parsed value) are the `LoadInput`
alternatives. `!data.nodes` on the parsed value uses JS semantics: property
access on `null` throws (caught by the surrounding `try`, logging an error),
on any other non-object it yields `undefined` (falsy). -/

/-- A parsed JSON value (`JSON.parse` output). -/
inductive Json where
  | null
  | bool (b : Bool)
  | num (n : Int)
  | str (s : String)
  | arr (elems : List Json)
  | obj (entries : List (String × Json))

/-- JS truthiness of a JSON value (`NaN` cannot arise from `JSON.parse`). -/
def Json.truthy : Json → Bool
  | .null => false
  | .bool b => b
  | .num n => n ≠ 0
  | .str s => s ≠ ""
  | .arr _ => true
  | .obj _ => true

/-- Property access `v[key]` on a non-null value: own entry of an object
(first binding wins, as in a parsed JSON object), `undefined` (`none`)
otherwise. -/
def Json.getProp : Json → String → Option Json
  | .obj entries, key => (entries.find? (fun p => p.1 == key)).map (·.2)
  | _, _ => none

/-- Truthiness of `v[key]`, with `undefined` falsy. -/
def Json.truthyProp (v : Json) (key : String) : Bool :=
  match v.getProp key with
  | some w => w.truthy
  | none => false

/-- What `localStorage.getItem` + `JSON.parse` produced: `absent` when the
raw value is `null` or `""` (both falsy), `malformed` when `JSON.parse`
threw, `parsed v` otherwise. -/
inductive LoadInput where
  | absent
  | malformed
  | parsed (v : Json)

/-- Which console channel `loadSavedWorkflow` reported on. -/
inductive LogKind where
  | error | warn
deriving DecidableEq, Repr

/-- The observable outcome of `loadSavedWorkflow`: the returned value
(`none` for `null`) and what was logged. The function never throws: every
exception inside the body is caught by its `try`/`catch`. -/
structure LoadOutcome where
  result : Option Json
  log : Option LogKind

/-- `loadSavedWorkflow` (`useAutoSave.ts` lines 253-272). A parsed `null`
reaches `!data.nodes`, which throws a `TypeError` caught by the `catch`
(console.error path); any other parsed value takes the guard normally. -/
def loadSavedWorkflow : LoadInput → LoadOutcome
  | .absent => ⟨none, none⟩
  | .malformed => ⟨none, some .error⟩
  | .parsed v =>
    match v with
    | .null => ⟨none, some .error⟩
    | data =>
      if !data.truthyProp "nodes" || !data.truthyProp "edges" ||
          !data.truthyProp "timestamp" then
        ⟨none, some .warn⟩
      else
        ⟨some data, none⟩

/-! ### Concrete fixtures used by witnesses and counterexamples -/

/-- A Form node with the given field names (mirrors the `createFormNode`
helper of `getReachableFields.test.ts`). -/
def mkFormNode (id : String) (names : List String) : Node :=
  { id := id, type := "form", position := ⟨0, 0⟩,
    data := { label := some "Form", customName := some ("Form " ++ id),
              fields := some (names.enum.map (fun p =>
                ⟨id ++ "-field-" ++ toString p.1, p.2, p.2, "string", false, none⟩)) } }

/-- The spec's linear chain Start→Form1{a,b}→Form2{a,c}→Conditional. -/
def chainNodes : List Node :=
  [ { id := "start", type := "start", position := ⟨0, 0⟩, data := { label := some "Start" } },
    mkFormNode "form1" ["a", "b"],
    mkFormNode "form2" ["a", "c"],
    { id := "cond1", type := "conditional", position := ⟨0, 0⟩,
      data := { label := some "Conditional", customName := some "Cond",
                fieldToEvaluate := some "a", operator := some "equals",
                value := some "1" } } ]

/-- Edges of the linear chain. -/
def chainEdges : List Edge :=
  [ ⟨"e1", "start", "form1", none, none, none⟩,
    ⟨"e2", "form1", "form2", none, none, none⟩,
    ⟨"e3", "form2", "cond1", none, none, none⟩ ]

/-- A Form node that is its own predecessor through a self-loop edge. -/
def loopFormNodes : List Node := [mkFormNode "f" ["x"]]

/-- The self-loop edge on `"f"`. -/
def loopEdges : List Edge := [⟨"eloop", "f", "f", none, none, none⟩]

/-- An API node with the given url/method. -/
def mkApiNode (id : String) (url method : Option String) : Node :=
  { id := id, type := "api", position := ⟨0, 0⟩,
    data := { url := url, method := method } }

/-- A saved record holding the chain workflow. -/
def chainSavedRecord : SavedWorkflowData :=
  ⟨chainNodes, chainEdges, "2024-12-02T20:30:45.123Z"⟩

/-- An idle controller state whose storage slot holds the chain workflow. -/
def chainSavedState : AutoSaveState := ⟨.idle, none, none, some chainSavedRecord⟩

/-- The chain nodes with a function-valued `onChange` entry attached to each
node's `data`, as the canvas layer does; content-equal to `chainNodes` after
the serializer strips function entries. -/
def chainNodesWithCallbacks : List Node :=
  chainNodes.map (fun n => { n with dataFns := ["onChange"] })

/-- A parsed record `{nodes: [], edges: [], timestamp: ""}`: the
`timestamp` key is present but falsy. -/
def emptyTimestampJson : Json :=
  .obj [("nodes", .arr []), ("edges", .arr []), ("timestamp", .str "")]

/-- A well-formed parsed record. -/
def goodRecordJson : Json :=
  .obj [("nodes", .arr [.obj [("id", .str "1")]]), ("edges", .arr []),
        ("timestamp", .str "2024-01-01T00:00:00.000Z")]

/-- A string with no `'-'` character: error ids concatenate node ids, field
ids and check names with `'-'`, so hyphen-free ids keep the segments
recoverable. -/
def noHyphen (s : String) : Prop := ¬ '-' ∈ s.data

instance (s : String) : Decidable (noHyphen s) :=
  inferInstanceAs (Decidable (¬ '-' ∈ s.data))

/-- Split a character list at every `'-'` (the segment structure of an
error id). -/
def splitDash : List Char → List (List Char)
  | [] => [[]]
  | c :: rest =>
    match splitDash rest with
    | [] => [[]]
    | seg :: segs => if c = '-' then [] :: seg :: segs else (c :: seg) :: segs

/-- Every id `validateFormNode` can emit for this node, in emission order. -/
def formPossibleIds (node : Node) : List String :=
  [node.id ++ "-customName-required", node.id ++ "-customName-minLength",
   node.id ++ "-fields-empty"] ++
  (node.data.fields.getD []).bind (fun f =>
    [node.id ++ "-field-" ++ f.id ++ "-name-required",
     node.id ++ "-field-" ++ f.id ++ "-name-alphanumeric",
     node.id ++ "-field-" ++ f.id ++ "-name-minLength",
     node.id ++ "-field-" ++ f.id ++ "-label-required",
     node.id ++ "-field-" ++ f.id ++ "-label-minLength"])

/-- Every id `validateConditionalNode` can emit for this node. -/
def conditionalPossibleIds (node : Node) : List String :=
  [node.id ++ "-customName-required", node.id ++ "-customName-minLength",
   node.id ++ "-fieldToEvaluate-required", node.id ++ "-operator-required",
   node.id ++ "-value-required"]

/-- Every id `validateApiNode` can emit for this node. -/
def apiPossibleIds (node : Node) : List String :=
  [node.id ++ "-url-required", node.id ++ "-url-invalid",
   node.id ++ "-method-required"]

/-- Every id the per-node dispatch of `validateWorkflow` can emit. -/
def nodePossibleIds (node : Node) : List String :=
  match node.type with
  | "form" => formPossibleIds node
  | "conditional" => conditionalPossibleIds node
  | "api" => apiPossibleIds node
  | _ => []

/-- Every id `validateWorkflow` can emit on this graph, in emission order:
per-node validator ids, then the structural check ids. -/
def possibleErrorIds (nodes : List Node) : List String :=
  (nodes.bind nodePossibleIds) ++
  ["workflow-no-work-nodes", "workflow-no-start", "workflow-multiple-starts",
   "workflow-no-end", "workflow-multiple-ends"] ++
  ((nodes.filter (fun n => n.type == "conditional")).bind (fun n =>
    [n.id ++ "-route-true-missing", n.id ++ "-route-false-missing"])) ++
  ["workflow-start-no-outgoing", "workflow-end-no-incoming"] ++
  (nodes.map (fun n => n.id ++ "-not-reachable"))

/-- A Form node with one blank-named field, for the id-collision graphs. -/
def mkC5Node (nid fid : String) : Node :=
  { id := nid, type := "form", position := ⟨0, 0⟩,
    data := { customName := some ("Form " ++ nid),
              fields := some [⟨fid, "", "LB", "string", false, none⟩] } }

/-- Two Form nodes with unique node ids and per-node unique field ids whose
blank-name errors share the id `"a-field-b-field-c-name-required"`. -/
def c5CollisionNodes : List Node :=
  [mkC5Node "a" "b-field-c", mkC5Node "a-field-b" "c"]

/-- A small graph with hyphen-free ids for the amended-claim witness. -/
def c5WitnessNodes : List Node :=
  [ { id := "s1", type := "start", position := ⟨0, 0⟩, data := { label := some "Start" } },
    mkC5Node "n1" "f1",
    { id := "n2", type := "api", position := ⟨0, 0⟩, data := { url := some "x" } },
    { id := "n3", type := "conditional", position := ⟨0, 0⟩, data := {} } ]

/-- The unique Start node of the connectivity witness graph. -/
def c6Start : Node :=
  { id := "start", type := "start", position := ⟨0, 0⟩, data := { label := some "Start" } }

/-- The unique End node of the connectivity witness graph. -/
def c6End : Node :=
  { id := "end1", type := "end", position := ⟨0, 0⟩, data := { label := some "End" } }

/-- Connectivity witness graph: Start→End plus a disconnected Form node. -/
def c6Nodes : List Node := [c6Start, mkFormNode "orph" ["z"], c6End]

/-- Edge of the connectivity witness graph. -/
def c6Edges : List Edge := [⟨"e1", "start", "end1", none, none, none⟩]

/-- The first suffix segments a per-node validator id can have. -/
def valHeads : List (Option (List Char)) :=
  [some ("customName" : String).data, some ("fields" : String).data,
   some ("fieldToEvaluate" : String).data, some ("operator" : String).data,
   some ("value" : String).data, some ("url" : String).data,
   some ("method" : String).data]

/-! ## Theorems -/

/-! ### C2 — the chain example of `getReachableFields` -/

/-- C2, counterexample: on Start→Form1{a,b}→Form2{a,c}→Conditional the
function does NOT return `["a","b","c"]` (it visits Form2 before Form1, so
the first-seen order is `["a","c","b"]`). -/
theorem getReachableFields_chain_not_abc :
    getReachableFields "cond1" chainNodes chainEdges ≠ ["a", "b", "c"] := by
  decide

/-- C2, amended: on Start→Form1{a,b}→Form2{a,c}→Conditional the result is
exactly `["a","c","b"]`: names deduplicated by name (not field id), empty
names skipped, in first-seen order of the backward breadth-first visit
(nearest ancestor Form2 first). -/
theorem getReachableFields_chain_eq_acb :
    getReachableFields "cond1" chainNodes chainEdges = ["a", "c", "b"] := by
  decide

/-! ### C7 — API url errors are mutually exclusive -/

/-- C7: `validateApiNode` emits at most one url-scoped error; an absent or
blank-after-trim url yields exactly the "required" error, a present url
failing the format test yields exactly the "invalid format" error, and a
well-formed url yields no url error — never both in one call. -/
theorem validateApiNode_url_errors_exclusive (node : Node) :
    ((validateApiNode node).filter (fun e => e.field == some "url")).length ≤ 1 ∧
    (isEmpty node.data.url = true →
      (validateApiNode node).filter (fun e => e.field == some "url") =
        [⟨node.id ++ "-url-required", "error", "API URL is required",
          some node.id, some "url"⟩]) ∧
    (isEmpty node.data.url = false → isValidUrl node.data.url = false →
      (validateApiNode node).filter (fun e => e.field == some "url") =
        [⟨node.id ++ "-url-invalid", "error", "URL must start with http:// or https://",
          some node.id, some "url"⟩]) ∧
    (isEmpty node.data.url = false → isValidUrl node.data.url = true →
      (validateApiNode node).filter (fun e => e.field == some "url") = []) := by
  unfold validateApiNode
  cases h1 : isEmpty node.data.url <;>
    cases h2 : isValidUrl node.data.url <;>
      cases h3 : (node.data.method = none || node.data.method = some "") <;>
        simp [h1, h2, h3, List.filter]

/-- C7, witness: the two spec examples — `url:""` gives exactly the
"required" url error and `url:"invalid-url"` exactly the format error. -/
theorem validateApiNode_url_errors_exclusive_witness :
    ((validateApiNode (mkApiNode "api1" (some "") (some "GET"))).filter
        (fun e => e.field == some "url") =
      [⟨"api1-url-required", "error", "API URL is required", some "api1", some "url"⟩]) ∧
    ((validateApiNode (mkApiNode "api2" (some "invalid-url") (some "GET"))).filter
        (fun e => e.field == some "url") =
      [⟨"api2-url-invalid", "error", "URL must start with http:// or https://",
        some "api2", some "url"⟩]) :=
  ⟨(validateApiNode_url_errors_exclusive (mkApiNode "api1" (some "") (some "GET"))).2.1
      (by decide),
   (validateApiNode_url_errors_exclusive
      (mkApiNode "api2" (some "invalid-url") (some "GET"))).2.2.1
      (by decide) (by decide)⟩

/-! ### C10 — `clearSaved` under storage failure -/

/-- C10: if the storage removal throws, `clearSaved` catches the exception
and leaves the whole state (in particular `saveStatus` and `lastSaved`)
unchanged; when removal succeeds it clears the record, sets `lastSaved` to
null and `saveStatus` to idle. -/
theorem clearSaved_catches_and_resets (s : AutoSaveState) :
    autoSaveStep (.clear false) s = s ∧
    autoSaveStep (.clear true) s =
      { s with store := none, lastSaved := none, saveStatus := .idle } :=
  ⟨rfl, rfl⟩

/-! ### C4 — content-equal snapshot short-circuits to `saved` -/

/-- C4: with a valid snapshot content-equal (per the serializer's node and
edge projections) to the persisted record, the controller goes directly to
`saved` with the record's timestamp as `lastSaved`, schedules no debounce
(`pending = none`) and performs no write (`store` unchanged). -/
theorem autoSave_noop_save (s : AutoSaveState) (saved : SavedWorkflowData)
    (nodes : List Node) (edges : List Edge)
    (hstore : s.store = some saved)
    (heq : areWorkflowsEqual nodes edges saved.nodes saved.edges = true) :
    autoSaveStep (.input nodes edges true) s =
      { s with pending := none, saveStatus := .saved,
               lastSaved := some saved.timestamp } := by
  simp only [autoSaveStep, hstore, heq, Bool.not_true, if_pos, if_neg, Bool.false_eq_true,
    if_false]

/-- C4, witness: a snapshot differing from the persisted chain record only
by function-valued `data` entries is content-equal, so the step lands on
`saved` with the stored timestamp and no pending write. -/
theorem autoSave_noop_save_witness :
    autoSaveStep (.input chainNodesWithCallbacks chainEdges true) chainSavedState =
      { chainSavedState with pending := none, saveStatus := .saved,
                             lastSaved := some "2024-12-02T20:30:45.123Z" } :=
  autoSave_noop_save chainSavedState chainSavedRecord chainNodesWithCallbacks chainEdges
    rfl (by decide)

/-! ### C1 — invalid inputs block saving; only valid snapshots persist -/

/-- Store/pending invariant of the controller: if every pending snapshot and
every store entry beyond the initial one is `Q`-good and every valid input
event is `Q`-good, running any events preserves store-goodness. -/
theorem runAutoSave_store_inv (Q : List Node → List Edge → Prop)
    (S0 : Option SavedWorkflowData) :
    ∀ (events : List AutoSaveEvent) (s : AutoSaveState),
    (∀ n e, AutoSaveEvent.input n e true ∈ events → Q n e) →
    (∀ n e, s.pending = some (n, e) → Q n e) →
    (s.store = S0 ∨ s.store = none ∨
      ∃ n e ts, s.store = some ⟨n, e, ts⟩ ∧ Q n e) →
    ((runAutoSave events s).store = S0 ∨ (runAutoSave events s).store = none ∨
      ∃ n e ts, (runAutoSave events s).store = some ⟨n, e, ts⟩ ∧ Q n e) := by
  intro events
  induction events with
  | nil => intro s _ _ hs; exact hs
  | cons ev evs ih =>
    intro s hev hp hs
    have hev' : ∀ n e, AutoSaveEvent.input n e true ∈ evs → Q n e :=
      fun n e h => hev n e (List.mem_cons_of_mem _ h)
    show ((runAutoSave evs (autoSaveStep ev s)).store = S0 ∨ _ ∨ _)
    apply ih (autoSaveStep ev s) hev'
    · -- the step preserves pending-goodness
      intro n e hpe
      cases ev with
      | input nodes edges isValid =>
        cases isValid with
        | false => simp [autoSaveStep] at hpe
        | true =>
          have hq : Q nodes edges := hev nodes edges (List.mem_cons_self _ _)
          simp only [autoSaveStep] at hpe
          cases hst : s.store with
          | none =>
            rw [hst] at hpe
            simp at hpe
            rw [← hpe.1, ← hpe.2]; exact hq
          | some saved =>
            rw [hst] at hpe
            by_cases heq : areWorkflowsEqual nodes edges saved.nodes saved.edges = true
            · simp [heq] at hpe
            · simp [Bool.not_eq_true _ ▸ heq, Bool.eq_false_iff.mpr heq] at hpe
              rw [← hpe.1, ← hpe.2]; exact hq
      | fire writeOk now =>
        cases hpd : s.pending with
        | none =>
          have hstep : autoSaveStep (.fire writeOk now) s = s := by
            simp [autoSaveStep, hpd]
          rw [hstep] at hpe
          exact hp n e hpe
        | some p =>
          cases writeOk <;> simp [autoSaveStep, hpd] at hpe
      | clear removeOk =>
        cases removeOk <;> simp only [autoSaveStep] at hpe <;> exact hp n e hpe
    · -- the step preserves store-goodness
      cases ev with
      | input nodes edges isValid =>
        cases isValid with
        | false => simpa [autoSaveStep] using hs
        | true =>
          simp only [autoSaveStep]
          cases hst : s.store with
          | none => rw [hst] at hs; simpa using hs
          | some saved =>
            rw [hst] at hs
            by_cases heq : areWorkflowsEqual nodes edges saved.nodes saved.edges = true <;>
              simp [heq, hst] <;> simpa [hst] using hs
      | fire writeOk now =>
        cases hpd : s.pending with
        | none => simpa [autoSaveStep, hpd] using hs
        | some p =>
          cases writeOk with
          | false => simpa [autoSaveStep, hpd] using hs
          | true =>
            right; right
            refine ⟨p.1, p.2, now, ?_, hp p.1 p.2 (by rw [hpd])⟩
            simp [runAutoSave, autoSaveStep, hpd]
      | clear removeOk =>
        cases removeOk with
        | false => simpa [autoSaveStep] using hs
        | true => right; left; simp [autoSaveStep]

/-- C1: (a) on any input with `isValid = false` the controller transitions
to `error` with the pending debounce cancelled and nothing else touched (no
write: `store` and `lastSaved` unchanged), regardless of prior state;
(b) consequently, along every event sequence from a state with no pending
write, the persisted record is only ever the initial one, removed, or a
record whose snapshot arrived with `isValid = true`. -/
theorem autoSave_invalid_blocks_and_persists_only_valid :
    (∀ (s : AutoSaveState) (nodes : List Node) (edges : List Edge),
      autoSaveStep (.input nodes edges false) s =
        { s with pending := none, saveStatus := .error }) ∧
    (∀ (events : List AutoSaveEvent) (s0 : AutoSaveState), s0.pending = none →
      (runAutoSave events s0).store = s0.store ∨ (runAutoSave events s0).store = none ∨
      ∃ n e ts, (runAutoSave events s0).store = some ⟨n, e, ts⟩ ∧
        AutoSaveEvent.input n e true ∈ events) := by
  constructor
  · intro s nodes edges; rfl
  · intro events s0 h0
    exact runAutoSave_store_inv (fun n e => AutoSaveEvent.input n e true ∈ events)
      s0.store events s0 (fun _ _ h => h)
      (fun n e hpe => absurd (h0 ▸ hpe) (by simp))
      (Or.inl rfl)

/-- C1, witness: part (a) at a concrete state and part (b) on a concrete
event sequence (an invalid input, a valid input, a timer fire). -/
theorem autoSave_C1_witness :
    (autoSaveStep (.input chainNodes chainEdges false) chainSavedState =
      { chainSavedState with pending := none, saveStatus := .error }) ∧
    (let evs := [AutoSaveEvent.input chainNodes chainEdges false,
                 AutoSaveEvent.input chainNodes chainEdges true,
                 AutoSaveEvent.fire true "2025-01-01T00:00:00.000Z"]
     (runAutoSave evs ⟨.idle, none, none, none⟩).store = (⟨.idle, none, none, none⟩ :
        AutoSaveState).store ∨
      (runAutoSave evs ⟨.idle, none, none, none⟩).store = none ∨
      ∃ n e ts, (runAutoSave evs ⟨.idle, none, none, none⟩).store = some ⟨n, e, ts⟩ ∧
        AutoSaveEvent.input n e true ∈ evs) :=
  ⟨autoSave_invalid_blocks_and_persists_only_valid.1 chainSavedState chainNodes chainEdges,
   autoSave_invalid_blocks_and_persists_only_valid.2 _ ⟨.idle, none, none, none⟩ rfl⟩

/-! ### C8 — the Saved-Workflow Loader/Guard -/

/-- C8, counterexample: the stored string `"null"` parses to `null`, which
lacks `nodes`, yet the guard's property access throws and is caught by the
`catch`, logging an ERROR and not the warning the claim promises; and a
record whose `timestamp` key is present but `""` is rejected with a warning
rather than returned unchanged. -/
theorem loadSavedWorkflow_counterexample :
    Json.null.truthyProp "nodes" = false ∧
    loadSavedWorkflow (.parsed .null) = ⟨none, some .error⟩ ∧
    loadSavedWorkflow (.parsed .null) ≠ ⟨none, some .warn⟩ ∧
    emptyTimestampJson.getProp "timestamp" = some (.str "") ∧
    loadSavedWorkflow (.parsed emptyTimestampJson) = ⟨none, some .warn⟩ :=
  ⟨rfl, rfl,
   fun h => by
     rw [show loadSavedWorkflow (.parsed .null) = (⟨none, some .error⟩ : LoadOutcome)
       from rfl] at h
     simp at h,
   rfl, rfl⟩

/-- C8, amended: `loadSavedWorkflow` never throws past its boundary — every
stored value yields a plain return: nothing with no log when the raw value
is absent; nothing with an error log on a parse failure AND on a parsed
`null` (whose guard access throws inside the `try`); nothing with a warning
when any of `nodes`, `edges`, `timestamp` is absent or falsy on a non-null
parsed value; otherwise the parsed record itself, unchanged and with no
deeper validation. -/
theorem loadSavedWorkflow_spec :
    loadSavedWorkflow .absent = ⟨none, none⟩ ∧
    loadSavedWorkflow .malformed = ⟨none, some .error⟩ ∧
    loadSavedWorkflow (.parsed .null) = ⟨none, some .error⟩ ∧
    (∀ v : Json, v ≠ .null →
      ((!v.truthyProp "nodes" || !v.truthyProp "edges" ||
          !v.truthyProp "timestamp") = true →
        loadSavedWorkflow (.parsed v) = ⟨none, some .warn⟩) ∧
      ((!v.truthyProp "nodes" || !v.truthyProp "edges" ||
          !v.truthyProp "timestamp") = false →
        loadSavedWorkflow (.parsed v) = ⟨some v, none⟩)) := by
  refine ⟨rfl, rfl, rfl, ?_⟩
  intro v hv
  have hred : loadSavedWorkflow (.parsed v) =
      if (!v.truthyProp "nodes" || !v.truthyProp "edges" ||
          !v.truthyProp "timestamp") then ⟨none, some .warn⟩ else ⟨some v, none⟩ := by
    cases v <;> first | exact absurd rfl hv | rfl
  constructor
  · intro hguard; rw [hred, if_pos hguard]
  · intro hguard; rw [hred, if_neg (by simp [hguard])]

/-- C8, witness for the amended theorem: a present but key-less object is
rejected with a warning; a well-formed record is returned unchanged. -/
theorem loadSavedWorkflow_spec_witness :
    loadSavedWorkflow (.parsed (.obj [])) = ⟨none, some .warn⟩ ∧
    loadSavedWorkflow (.parsed goodRecordJson) = ⟨some goodRecordJson, none⟩ :=
  ⟨(loadSavedWorkflow_spec.2.2.2 (.obj []) (by intro h; cases h)).1 rfl,
   (loadSavedWorkflow_spec.2.2.2 goodRecordJson (by intro h; cases h)).2 rfl⟩

/-! ### Generic lemmas about the BFS loop -/

theorem contains_iff {l : List String} {a : String} : l.contains a = true ↔ a ∈ l := by
  simp [List.contains, List.elem_eq_mem]

theorem bfsAux_nil (next : String → List String) (fuel : Nat) (visited : List String) :
    bfsAux next fuel [] visited = visited := by
  cases fuel <;> rfl

theorem enqueueNew_cons (v : List String) (t : String) (ts : List String) :
    enqueueNew v (t :: ts) =
      if v.contains t = true then enqueueNew v ts
      else ((enqueueNew (v ++ [t]) ts).1, t :: (enqueueNew (v ++ [t]) ts).2) := rfl

theorem enqueueNew_cons_mem {v : List String} {t : String} (ht : t ∈ v) (ts : List String) :
    enqueueNew v (t :: ts) = enqueueNew v ts := by
  rw [enqueueNew_cons, if_pos (contains_iff.mpr ht)]

theorem enqueueNew_cons_not_mem {v : List String} {t : String} (ht : ¬ t ∈ v)
    (ts : List String) :
    enqueueNew v (t :: ts) =
      ((enqueueNew (v ++ [t]) ts).1, t :: (enqueueNew (v ++ [t]) ts).2) := by
  rw [enqueueNew_cons, if_neg (fun hc => ht (contains_iff.mp hc))]

theorem enqueueNew_fst (ts : List String) : ∀ visited,
    (enqueueNew visited ts).1 = visited ++ (enqueueNew visited ts).2 := by
  induction ts with
  | nil => intro v; simp [enqueueNew]
  | cons t ts ih =>
    intro v
    by_cases ht : t ∈ v
    · rw [enqueueNew_cons_mem ht]
      exact ih v
    · rw [enqueueNew_cons_not_mem ht]
      rw [ih (v ++ [t])]
      simp

theorem enqueueNew_mem (x : String) (ts : List String) : ∀ visited,
    (x ∈ (enqueueNew visited ts).1 ↔ x ∈ visited ∨ x ∈ ts) := by
  induction ts with
  | nil => intro v; simp [enqueueNew]
  | cons t ts ih =>
    intro v
    by_cases ht : t ∈ v
    · rw [enqueueNew_cons_mem ht, ih v]
      constructor
      · rintro (h1 | h1)
        · exact Or.inl h1
        · exact Or.inr (List.mem_cons_of_mem _ h1)
      · rintro (h1 | h1)
        · exact Or.inl h1
        · rcases List.mem_cons.mp h1 with rfl | h2
          · exact Or.inl ht
          · exact Or.inr h2
    · rw [enqueueNew_cons_not_mem ht, ih (v ++ [t])]
      simp [List.mem_append, List.mem_cons]
      tauto

theorem enqueueNew_snd_subset (ts : List String) : ∀ visited x,
    x ∈ (enqueueNew visited ts).2 → x ∈ ts ∧ ¬ x ∈ visited := by
  induction ts with
  | nil => intro v x hx; simp [enqueueNew] at hx
  | cons t ts ih =>
    intro v x hx
    by_cases ht : t ∈ v
    · rw [enqueueNew_cons_mem ht] at hx
      obtain ⟨h1, h2⟩ := ih v x hx
      exact ⟨List.mem_cons_of_mem _ h1, h2⟩
    · rw [enqueueNew_cons_not_mem ht] at hx
      rcases List.mem_cons.mp hx with rfl | h2
      · exact ⟨List.mem_cons_self _ _, ht⟩
      · obtain ⟨h1, h3⟩ := ih (v ++ [t]) x h2
        exact ⟨List.mem_cons_of_mem _ h1, fun hm => h3 (List.mem_append_left _ hm)⟩

theorem countFresh_append_lt (U v : List String) (t : String)
    (htU : t ∈ U) (htv : ¬ t ∈ v) :
    countFresh U (v ++ [t]) < countFresh U v := by
  unfold countFresh
  have hpt : ∀ u ∈ U, (!(v ++ [t]).contains u) = (!(u == t) && !v.contains u) := by
    intro u _
    by_cases h1 : u = t <;> by_cases h2 : u ∈ v <;>
      simp [h1, h2, List.contains, List.elem_eq_mem, List.mem_append]
  rw [List.filter_congr hpt, ← List.filter_filter]
  apply List.length_filter_lt_length_iff_exists.mpr
  refine ⟨t, ?_, by simp⟩
  rw [List.mem_filter]
  exact ⟨htU, by simp [List.contains, List.elem_eq_mem, htv]⟩

theorem enqueueNew_measure (U : List String) (ts : List String) : ∀ visited,
    (∀ x ∈ ts, x ∈ U) →
    countFresh U (enqueueNew visited ts).1 + (enqueueNew visited ts).2.length ≤
      countFresh U visited := by
  induction ts with
  | nil => intro v _; simp [enqueueNew]
  | cons t ts ih =>
    intro v hU
    have hU' : ∀ x ∈ ts, x ∈ U := fun x hx => hU x (List.mem_cons_of_mem _ hx)
    by_cases ht : t ∈ v
    · rw [enqueueNew_cons_mem ht]
      exact ih v hU'
    · have hkey := countFresh_append_lt U v t (hU t (List.mem_cons_self _ _)) ht
      have hrec := ih (v ++ [t]) hU'
      rw [enqueueNew_cons_not_mem ht]
      simp only [List.length_cons]
      omega

theorem bfsAux_stable (next : String → List String) (U : List String)
    (hnext : ∀ c x, x ∈ next c → x ∈ U) :
    ∀ f1 f2 q visited, q.length + countFresh U visited ≤ f1 →
      q.length + countFresh U visited ≤ f2 →
      bfsAux next f1 q visited = bfsAux next f2 q visited := by
  intro f1
  induction f1 with
  | zero =>
    intro f2 q v h1 _
    have hq : q = [] := List.length_eq_zero.mp (by omega)
    subst hq
    rw [bfsAux_nil, bfsAux_nil]
  | succ f1 ih =>
    intro f2 q v h1 h2
    cases q with
    | nil => rw [bfsAux_nil, bfsAux_nil]
    | cons c rest =>
      obtain ⟨f2', rfl⟩ : ∃ f2', f2 = f2' + 1 := by
        cases f2 with
        | zero => simp at h2
        | succ n => exact ⟨n, rfl⟩
      have hstep1 : bfsAux next (f1 + 1) (c :: rest) v =
          bfsAux next f1 (rest ++ (enqueueNew v (next c)).2) (enqueueNew v (next c)).1 := rfl
      have hstep2 : bfsAux next (f2' + 1) (c :: rest) v =
          bfsAux next f2' (rest ++ (enqueueNew v (next c)).2) (enqueueNew v (next c)).1 := rfl
      rw [hstep1, hstep2]
      have hm := enqueueNew_measure U (next c) v (fun x hx => hnext c x hx)
      have hlen : (rest ++ (enqueueNew v (next c)).2).length =
          rest.length + (enqueueNew v (next c)).2.length := List.length_append _ _
      apply ih
      · simp only [List.length_cons] at h1; omega
      · simp only [List.length_cons] at h2; omega

theorem bfsAux_sound_succ (next : String → List String) (P : String → Prop)
    (hstep : ∀ c x, P c → x ∈ next c → P x) :
    ∀ fuel q visited, (∀ c ∈ q, P c) →
      ∀ x ∈ bfsAux next fuel q visited, x ∈ visited ∨ ∃ c, P c ∧ x ∈ next c := by
  intro fuel
  induction fuel with
  | zero => intro q v _ x hx; exact Or.inl hx
  | succ fuel ih =>
    intro q v hq x hx
    cases q with
    | nil => rw [bfsAux_nil] at hx; exact Or.inl hx
    | cons c rest =>
      have hc : P c := hq c (List.mem_cons_self _ _)
      have hx' : x ∈ bfsAux next fuel (rest ++ (enqueueNew v (next c)).2)
          (enqueueNew v (next c)).1 := hx
      have hq' : ∀ d ∈ rest ++ (enqueueNew v (next c)).2, P d := by
        intro d hd
        rcases List.mem_append.mp hd with h1 | h1
        · exact hq d (List.mem_cons_of_mem _ h1)
        · exact hstep c d hc (enqueueNew_snd_subset (next c) v d h1).1
      rcases ih _ _ hq' x hx' with h | h
      · rcases (enqueueNew_mem x (next c) v).mp h with h1 | h1
        · exact Or.inl h1
        · exact Or.inr ⟨c, hc, h1⟩
      · exact Or.inr h

/-! ### C9 — both traversals terminate on cyclic multigraphs -/

/-- C9: the visited-set guard lets both BFS loops reach their fixpoint
within `edges.length + 1` dequeues on every finite graph, cycles and
parallel edges included: running either loop with ANY fuel at least
`edges.length + 1` returns exactly the reachable set computed by
`getReachableFields` (backward) or `validateWorkflowStructure` (forward) —
the loop has terminated, and extra iterations change nothing. -/
theorem traversals_terminate (edges : List Edge) (nodeId startId : String)
    (fuel : Nat) (h : edges.length + 1 ≤ fuel) :
    bfsAux (backNeighbors edges) fuel [nodeId] [] = backwardReachableIds edges nodeId ∧
    bfsAux (fwdNeighbors edges) fuel [startId] [startId] =
      reachableFromStart edges startId := by
  constructor
  · apply bfsAux_stable (backNeighbors edges) (edges.map (·.source))
    · intro c x hx
      simp only [backNeighbors, List.mem_map] at hx
      obtain ⟨e, he, rfl⟩ := hx
      exact List.mem_map_of_mem _ (List.mem_of_mem_filter he)
    · have : countFresh (edges.map (·.source)) [] ≤ edges.length := by
        unfold countFresh
        calc ((edges.map (·.source)).filter _).length
            ≤ (edges.map (·.source)).length := List.length_filter_le _ _
          _ = edges.length := List.length_map _ _
      simp only [List.length_cons, List.length_nil]
      omega
    · have : countFresh (edges.map (·.source)) [] ≤ edges.length := by
        unfold countFresh
        calc ((edges.map (·.source)).filter _).length
            ≤ (edges.map (·.source)).length := List.length_filter_le _ _
          _ = edges.length := List.length_map _ _
      simp only [List.length_cons, List.length_nil]
      omega
  · apply bfsAux_stable (fwdNeighbors edges) (edges.map (·.target))
    · intro c x hx
      simp only [fwdNeighbors, List.mem_map] at hx
      obtain ⟨e, he, rfl⟩ := hx
      exact List.mem_map_of_mem _ (List.mem_of_mem_filter he)
    · have : countFresh (edges.map (·.target)) [startId] ≤ edges.length := by
        unfold countFresh
        calc ((edges.map (·.target)).filter _).length
            ≤ (edges.map (·.target)).length := List.length_filter_le _ _
          _ = edges.length := List.length_map _ _
      simp only [List.length_cons, List.length_nil]
      omega
    · have : countFresh (edges.map (·.target)) [startId] ≤ edges.length := by
        unfold countFresh
        calc ((edges.map (·.target)).filter _).length
            ≤ (edges.map (·.target)).length := List.length_filter_le _ _
          _ = edges.length := List.length_map _ _
      simp only [List.length_cons, List.length_nil]
      omega

/-- C9, witness: on the one-edge cycle `f → f`, running both loops with the
generous fuel 10 already equals the definitions' own runs. -/
theorem traversals_terminate_witness :
    bfsAux (backNeighbors loopEdges) 10 ["f"] [] = backwardReachableIds loopEdges "f" ∧
    bfsAux (fwdNeighbors loopEdges) 10 ["f"] ["f"] = reachableFromStart loopEdges "f" :=
  traversals_terminate loopEdges "f" "f" 10 (by decide)

/-! ### C3 — soundness of `getReachableFields` -/

theorem mem_backNeighbors {edges : List Edge} {a b : String} :
    b ∈ backNeighbors edges a ↔ ∃ e ∈ edges, e.target = a ∧ e.source = b := by
  simp only [backNeighbors, List.mem_map, List.mem_filter, beq_iff_eq]
  constructor
  · rintro ⟨e, ⟨he, hta⟩, rfl⟩
    exact ⟨e, he, hta, rfl⟩
  · rintro ⟨e, he, hta, rfl⟩
    exact ⟨e, ⟨he, hta⟩, rfl⟩

theorem reflTransGen_back_edgeStep {edges : List Edge} {t c : String}
    (h : Relation.ReflTransGen (fun a b => b ∈ backNeighbors edges a) t c) :
    Relation.ReflTransGen (EdgeStep edges) c t := by
  induction h with
  | refl => exact .refl
  | tail _ hbc ih =>
    obtain ⟨e, he, hta, hsa⟩ := mem_backNeighbors.mp hbc
    exact Relation.ReflTransGen.head ⟨e, he, hsa, hta⟩ ih

theorem fieldNamesFold_mem (fields : List Field) : ∀ acc name,
    name ∈ fields.foldl (fun acc f =>
      if f.name ≠ "" && !acc.contains f.name then acc ++ [f.name] else acc) acc →
    name ∈ acc ∨ ∃ f ∈ fields, f.name = name ∧ name ≠ "" := by
  induction fields with
  | nil => intro acc name h; exact Or.inl h
  | cons f fs ih =>
    intro acc name h
    simp only [List.foldl_cons] at h
    rcases ih _ name h with h1 | h1
    · by_cases hcond : (f.name ≠ "" && !acc.contains f.name) = true
      · rw [if_pos hcond] at h1
        rcases List.mem_append.mp h1 with h2 | h2
        · exact Or.inl h2
        · have hfn : f.name ≠ "" := by
            have := (Bool.and_eq_true _ _).mp hcond
            exact of_decide_eq_true this.1
          rcases List.mem_singleton.mp h2 with rfl
          exact Or.inr ⟨f, List.mem_cons_self _ _, rfl, hfn⟩
      · rw [if_neg hcond] at h1
        exact Or.inl h1
    · obtain ⟨g, hg, hgn, hne⟩ := h1
      exact Or.inr ⟨g, List.mem_cons_of_mem _ hg, hgn, hne⟩

theorem collectFieldNames_mem (nodes : List Node) : ∀ (ids acc : List String) (name : String),
    name ∈ ids.foldl (fun fieldNames id =>
      match nodes.find? (fun n => n.id == id) with
      | some node =>
        if node.type == "form" then
          match node.data.fields with
          | some fields =>
            fields.foldl (fun acc f =>
              if f.name ≠ "" && !acc.contains f.name then acc ++ [f.name] else acc)
              fieldNames
          | none => fieldNames
        else fieldNames
      | none => fieldNames) acc →
    name ∈ acc ∨ ∃ id ∈ ids, ∃ n, nodes.find? (fun m => m.id == id) = some n ∧
      n.type = "form" ∧ ∃ fields, n.data.fields = some fields ∧
      ∃ f ∈ fields, f.name = name ∧ name ≠ "" := by
  intro ids
  induction ids with
  | nil => intro acc name h; exact Or.inl h
  | cons id ids ih =>
    intro acc name h
    simp only [List.foldl_cons] at h
    rcases ih _ name h with h1 | h1
    · cases hfind : nodes.find? (fun n => n.id == id) with
      | none => simp only [hfind] at h1; exact Or.inl h1
      | some node =>
        simp only [hfind] at h1
        by_cases hform : (node.type == "form") = true
        · rw [if_pos hform] at h1
          cases hfields : node.data.fields with
          | none => simp only [hfields] at h1; exact Or.inl h1
          | some fields =>
            simp only [hfields] at h1
            rcases fieldNamesFold_mem fields acc name h1 with h2 | h2
            · exact Or.inl h2
            · obtain ⟨f, hf, hfn, hne⟩ := h2
              exact Or.inr ⟨id, List.mem_cons_self _ _, node, hfind,
                beq_iff_eq.mp hform, fields, hfields, f, hf, hfn, hne⟩
        · rw [if_neg hform] at h1; exact Or.inl h1
    · obtain ⟨id', hid, rest⟩ := h1
      exact Or.inr ⟨id', List.mem_cons_of_mem _ hid, rest⟩

/-- C3, counterexample: with the single Form node `f` (field `"x"`) and the
self-loop edge `f → f`, `getReachableFields` at target `f` returns `["x"]`
— the target's own field appears, because the cycle re-enqueues the target
(it is seeded in the queue but not in the visited set). Every node of this
graph IS the target, so the name cannot come from any non-target node. -/
theorem getReachableFields_cycle_counterexample :
    getReachableFields "f" loopFormNodes loopEdges = ["x"] ∧
    ("x" ∈ getReachableFields "f" loopFormNodes loopEdges) ∧
    (∀ n ∈ loopFormNodes, n.id = "f") := by
  decide

/-- C3, amended: every field name returned by `getReachableFields` comes
from a Form node of the graph that has a NONEMPTY directed path to the
target — so descendants, disconnected components and orphans never
contribute, and the target's own fields appear exactly when the target lies
on a directed cycle (a nonempty path from itself to itself), not never. -/
theorem getReachableFields_sound (nodes : List Node) (edges : List Edge)
    (target name : String) (h : name ∈ getReachableFields target nodes edges) :
    name ≠ "" ∧ ∃ n ∈ nodes, n.type = "form" ∧
      Relation.TransGen (EdgeStep edges) n.id target ∧
      ∃ fields, n.data.fields = some fields ∧ ∃ f ∈ fields, f.name = name := by
  have h' := h
  unfold getReachableFields collectFieldNames at h'
  rcases collectFieldNames_mem nodes (backwardReachableIds edges target) [] name h' with
    h1 | h1
  · exact absurd h1 (List.not_mem_nil _)
  obtain ⟨id, hid, n, hfind, hform, fields, hfields, f, hf, hfn, hne⟩ := h1
  have hmem : n ∈ nodes := List.mem_of_find?_eq_some hfind
  have hpred : (n.id == id) = true := by
    have h0 := List.find?_some hfind
    exact h0
  have hnid : n.id = id := beq_iff_eq.mp hpred
  have hsound := bfsAux_sound_succ (backNeighbors edges)
    (Relation.ReflTransGen (fun a b => b ∈ backNeighbors edges a) target)
    (fun c x hc hx => hc.tail hx)
    (edges.length + 1) [target] []
    (by intro c hc; rcases List.mem_singleton.mp hc with rfl; exact .refl)
    id hid
  rcases hsound with h2 | h2
  · exact absurd h2 (List.not_mem_nil _)
  obtain ⟨c, hc, hstep⟩ := h2
  obtain ⟨e, he, hta, hsa⟩ := mem_backNeighbors.mp hstep
  have htrans : Relation.TransGen (EdgeStep edges) id target :=
    Relation.TransGen.head' ⟨e, he, hsa, hta⟩ (reflTransGen_back_edgeStep hc)
  refine ⟨hne, n, hmem, hform, ?_, fields, hfields, f, hf, hfn⟩
  rw [hnid]
  exact htrans

/-- C3, witness for the amended theorem: the name `"a"` returned on the
linear chain comes from a Form ancestor of the Conditional target. -/
theorem getReachableFields_sound_witness :
    "a" ≠ "" ∧ ∃ n ∈ chainNodes, n.type = "form" ∧
      Relation.TransGen (EdgeStep chainEdges) n.id "cond1" ∧
      ∃ fields, n.data.fields = some fields ∧ ∃ f ∈ fields, f.name = "a" :=
  getReachableFields_sound chainNodes chainEdges "cond1" "a" (by decide)

/-! ### C6 — the "not reachable from Start" errors -/

theorem bind_if_singleton {α β : Type} (p : α → Bool) (f : α → β) (l : List α) :
    (l.bind fun a => if p a then [f a] else []) = (l.filter p).map f := by
  induction l with
  | nil => rfl
  | cons a l ih =>
    by_cases h : p a = true <;>
      simp [List.filter_cons, h, ih]

theorem head_data_append (a b : String) (c : Char)
    (h : a.data.head? = some c) : (a ++ b).data.head? = some c := by
  rw [String.data_append]
  cases hd : a.data with
  | nil => rw [hd] at h; exact absurd h (by simp)
  | cons x xs =>
    rw [hd] at h
    simp only [List.head?_cons, Option.some.injEq] at h
    subst h
    simp

theorem mkNotReachableError_head (n : Node) :
    (mkNotReachableError n).message.data.head? = some '"' := by
  show (("\"" ++ strOr n.data.customName (strOr n.data.label (n.type ++ " node")) ++
      "\" is not reachable from Start block" : String)).data.head? = some '"'
  exact head_data_append _ _ _ (head_data_append _ _ _ rfl)

theorem ne_mkNotReachable_of_head {e : ValidationError} {c : Char}
    (hc : e.message.data.head? = some c) (hne : c ≠ '"') :
    ∀ n : Node, e ≠ mkNotReachableError n := by
  intro n h
  rw [h, mkNotReachableError_head n] at hc
  exact hne (Option.some.inj hc).symm

theorem mem_if_singleton {α : Type} {c : Prop} [Decidable c] {x a : α}
    (h : x ∈ (if c then [a] else [])) : x = a := by
  by_cases hc : c
  · rw [if_pos hc] at h; exact List.mem_singleton.mp h
  · rw [if_neg hc] at h; exact absurd h (List.not_mem_nil x)

theorem mem_if_if_singleton {α : Type} {c1 c2 : Prop} [Decidable c1] [Decidable c2]
    {x a b : α} (h : x ∈ (if c1 then [a] else if c2 then [b] else [])) :
    x = a ∨ x = b := by
  by_cases hc1 : c1
  · rw [if_pos hc1] at h; exact Or.inl (List.mem_singleton.mp h)
  · rw [if_neg hc1] at h
    by_cases hc2 : c2
    · rw [if_pos hc2] at h; exact Or.inr (List.mem_singleton.mp h)
    · rw [if_neg hc2] at h; exact absurd h (List.not_mem_nil x)

theorem workNodePresenceErrors_head {nodes : List Node} {e : ValidationError}
    (h : e ∈ workNodePresenceErrors nodes) : e.message.data.head? = some 'W' := by
  rw [mem_if_singleton h]
  rfl

theorem startCountErrors_head {nodes : List Node} {e : ValidationError}
    (h : e ∈ startCountErrors nodes) : e.message.data.head? = some 'W' := by
  rcases mem_if_if_singleton h with rfl | rfl
  · rfl
  · exact head_data_append _ _ _ (head_data_append _ _ _ rfl)

theorem endCountErrors_head {nodes : List Node} {e : ValidationError}
    (h : e ∈ endCountErrors nodes) : e.message.data.head? = some 'W' := by
  rcases mem_if_if_singleton h with rfl | rfl
  · rfl
  · exact head_data_append _ _ _ (head_data_append _ _ _ rfl)

theorem conditionalRouteErrors_head {edges : List Edge} {n : Node} {e : ValidationError}
    (h : e ∈ conditionalRouteErrors edges n) : e.message.data.head? = some 'C' := by
  rcases List.mem_append.mp h with h1 | h1
  · rw [mem_if_singleton h1]
    exact head_data_append _ _ _ (head_data_append _ _ _ rfl)
  · rw [mem_if_singleton h1]
    exact head_data_append _ _ _ (head_data_append _ _ _ rfl)

theorem startNoOutgoingErrors_head {nodes : List Node} {edges : List Edge}
    {startNode : Node} {e : ValidationError}
    (h : e ∈ startNoOutgoingErrors nodes edges startNode) :
    e.message.data.head? = some 'S' := by
  rw [mem_if_singleton h]
  rfl

theorem endNoIncomingErrors_head {nodes : List Node} {edges : List Edge}
    {endNode : Node} {e : ValidationError}
    (h : e ∈ endNoIncomingErrors nodes edges endNode) :
    e.message.data.head? = some 'E' := by
  rw [mem_if_singleton h]
  rfl

/-- C6: with exactly one Start and one End node, the structural error list
ends with exactly one "not reachable from Start" error per node outside the
forward-BFS reachable set (Start itself excepted) — each built by
`mkNotReachableError`, whose message names the node via the
customName-label-type fallback — preceded by a remainder that contains no
such error for any node, so reachable nodes yield none. -/
theorem validateWorkflowStructure_unreachable (nodes : List Node) (edges : List Edge)
    (startNode endNode : Node)
    (hS : nodes.filter (fun n => n.type == "start") = [startNode])
    (hE : nodes.filter (fun n => n.type == "end") = [endNode]) :
    ∃ rest, validateWorkflowStructure nodes edges =
        rest ++ (nodes.filter (fun n =>
          !(reachableFromStart edges startNode.id).contains n.id &&
            n.id ≠ startNode.id)).map mkNotReachableError ∧
      ∀ err ∈ rest, ∀ n : Node, err ≠ mkNotReachableError n := by
  refine ⟨workNodePresenceErrors nodes ++ startCountErrors nodes ++ endCountErrors nodes ++
    (nodes.filter (fun n => n.type == "conditional")).bind (conditionalRouteErrors edges) ++
    startNoOutgoingErrors nodes edges startNode ++
    endNoIncomingErrors nodes edges endNode, ?_, ?_⟩
  · have hsplit : validateWorkflowStructure nodes edges =
        workNodePresenceErrors nodes ++ startCountErrors nodes ++ endCountErrors nodes ++
        (nodes.filter (fun n => n.type == "conditional")).bind
          (conditionalRouteErrors edges) ++
        connectivityErrors nodes edges startNode endNode := by
      unfold validateWorkflowStructure
      rw [hS, hE]
    rw [hsplit]
    unfold connectivityErrors orphanErrors
    rw [bind_if_singleton]
    simp [List.append_assoc]
  · intro err hmem n
    rcases List.mem_append.mp hmem with h1 | hEndIn
    · rcases List.mem_append.mp h1 with h2 | hStartOut
      · rcases List.mem_append.mp h2 with h3 | hRoute
        · rcases List.mem_append.mp h3 with h4 | hEndCount
          · rcases List.mem_append.mp h4 with hWork | hStartCount
            · exact ne_mkNotReachable_of_head (workNodePresenceErrors_head hWork)
                (by decide) n
            · exact ne_mkNotReachable_of_head (startCountErrors_head hStartCount)
                (by decide) n
          · exact ne_mkNotReachable_of_head (endCountErrors_head hEndCount) (by decide) n
        · obtain ⟨m, _, hm⟩ := List.mem_bind.mp hRoute
          exact ne_mkNotReachable_of_head (conditionalRouteErrors_head hm) (by decide) n
      · exact ne_mkNotReachable_of_head (startNoOutgoingErrors_head hStartOut)
          (by decide) n
    · exact ne_mkNotReachable_of_head (endNoIncomingErrors_head hEndIn) (by decide) n

/-- C6, witness: on the Start→End graph with one disconnected Form node,
the structural errors end with exactly the one `mkNotReachableError` for
that node. -/
theorem validateWorkflowStructure_unreachable_witness :
    ∃ rest, validateWorkflowStructure c6Nodes c6Edges =
        rest ++ (c6Nodes.filter (fun n =>
          !(reachableFromStart c6Edges c6Start.id).contains n.id &&
            n.id ≠ c6Start.id)).map mkNotReachableError ∧
      ∀ err ∈ rest, ∀ n : Node, err ≠ mkNotReachableError n :=
  validateWorkflowStructure_unreachable c6Nodes c6Edges c6Start c6End
    (by decide) (by decide)

/-! ### C5 — distinctness of error ids

Error ids are hyphen-joined segments. `splitDash` recovers the segment
structure; the master lemmas below reduce every id comparison to segment
comparisons, which are concrete once the variable node/field ids (assumed
hyphen-free) are split off. -/

theorem splitDash_ne_nil (l : List Char) : splitDash l ≠ [] := by
  cases l with
  | nil => simp [splitDash]
  | cons c rest =>
    simp only [splitDash]
    cases splitDash rest with
    | nil => simp
    | cons seg segs =>
      by_cases h : c = '-' <;> simp [h]

theorem splitDash_append (a : List Char) (ha : ¬ '-' ∈ a) (r : List Char) :
    splitDash (a ++ '-' :: r) = a :: splitDash r := by
  induction a with
  | nil =>
    simp only [List.nil_append, splitDash]
    cases hsp : splitDash r with
    | nil => exact absurd hsp (splitDash_ne_nil r)
    | cons seg segs => simp
  | cons c a ih =>
    have hc : c ≠ '-' := fun h => ha (h ▸ List.mem_cons_self _ _)
    have ha' : ¬ '-' ∈ a := fun h => ha (List.mem_cons_of_mem _ h)
    rw [List.cons_append]
    show (match splitDash (a ++ '-' :: r) with
          | [] => [[]]
          | seg :: segs => if c = '-' then [] :: seg :: segs else (c :: seg) :: segs) =
        (c :: a) :: splitDash r
    rw [ih ha']
    simp [hc]

theorem splitDash_id (nid : String) (hn : noHyphen nid) (L : String)
    (hL : L.data.head? = some '-') :
    splitDash ((nid ++ L).data) = nid.data :: splitDash L.data.tail := by
  cases hd : L.data with
  | nil => rw [hd] at hL; exact absurd hL (by simp)
  | cons c r =>
    rw [hd] at hL
    simp only [List.head?_cons, Option.some.injEq] at hL
    subst hL
    rw [String.data_append, hd]
    simp only [List.tail_cons]
    exact splitDash_append nid.data hn r

theorem splitDash_field_id (nid fid : String) (hn : noHyphen nid) (hf : noHyphen fid)
    (L : String) (hL : L.data.head? = some '-') :
    splitDash ((nid ++ "-field-" ++ fid ++ L).data) =
      nid.data :: ("field" : String).data :: fid.data :: splitDash L.data.tail := by
  cases hd : L.data with
  | nil => rw [hd] at hL; exact absurd hL (by simp)
  | cons c r =>
    rw [hd] at hL
    simp only [List.head?_cons, Option.some.injEq] at hL
    subst hL
    have h1 : (nid ++ "-field-" ++ fid ++ L).data =
        nid.data ++ '-' :: (("field" : String).data ++
          '-' :: (fid.data ++ '-' :: r)) := by
      simp [String.data_append, hd, List.append_assoc]
    rw [h1, splitDash_append nid.data hn,
        splitDash_append ("field" : String).data (by decide),
        splitDash_append fid.data hf]
    simp only [List.tail_cons]

theorem str_data_inj {x y : String} (h : x.data = y.data) : x = y := String.ext h

/-- Two plain node-scoped ids differ when their suffix segments differ —
whatever the (hyphen-free) node ids are. -/
theorem plain_ids_ne {n1 n2 : String} (h1 : noHyphen n1) (h2 : noHyphen n2)
    (L1 L2 : String) (hL1 : L1.data.head? = some '-') (hL2 : L2.data.head? = some '-')
    (hT : splitDash L1.data.tail ≠ splitDash L2.data.tail) :
    n1 ++ L1 ≠ n2 ++ L2 := by
  intro he
  have hs : splitDash ((n1 ++ L1).data) = splitDash ((n2 ++ L2).data) := by rw [he]
  rw [splitDash_id n1 h1 L1 hL1, splitDash_id n2 h2 L2 hL2] at hs
  exact hT (List.cons.inj hs).2

/-- Two plain node-scoped ids with the same suffix differ when the
(hyphen-free) node ids differ. -/
theorem plain_ids_ne_nid {n1 n2 : String} (h1 : noHyphen n1) (h2 : noHyphen n2)
    (hne : n1 ≠ n2) (L1 L2 : String)
    (hL1 : L1.data.head? = some '-') (hL2 : L2.data.head? = some '-') :
    n1 ++ L1 ≠ n2 ++ L2 := by
  intro he
  have hs : splitDash ((n1 ++ L1).data) = splitDash ((n2 ++ L2).data) := by rw [he]
  rw [splitDash_id n1 h1 L1 hL1, splitDash_id n2 h2 L2 hL2] at hs
  exact hne (str_data_inj (List.cons.inj hs).1)

/-- A field-scoped id never equals a plain id whose first suffix segment is
not `field`. -/
theorem field_ne_plain_ids {n1 fid n2 : String} (h1 : noHyphen n1) (h2 : noHyphen n2)
    (hf : noHyphen fid) (Lf Lp : String)
    (hLf : Lf.data.head? = some '-') (hLp : Lp.data.head? = some '-')
    (hhead : (splitDash Lp.data.tail).head? ≠ some (("field" : String).data)) :
    n1 ++ "-field-" ++ fid ++ Lf ≠ n2 ++ Lp := by
  intro he
  have hs : splitDash ((n1 ++ "-field-" ++ fid ++ Lf).data) =
      splitDash ((n2 ++ Lp).data) := by rw [he]
  rw [splitDash_field_id n1 fid h1 hf Lf hLf, splitDash_id n2 h2 Lp hLp] at hs
  obtain ⟨-, hs2⟩ := List.cons.inj hs
  exact hhead (by rw [← hs2]; rfl)

/-- Two field-scoped ids differ unless node id, field id and rule suffix
all agree. -/
theorem field_ids_ne {n1 f1 n2 f2 : String} (hn1 : noHyphen n1) (hn2 : noHyphen n2)
    (hf1 : noHyphen f1) (hf2 : noHyphen f2) (L1 L2 : String)
    (hL1 : L1.data.head? = some '-') (hL2 : L2.data.head? = some '-')
    (h : ¬(n1 = n2 ∧ f1 = f2 ∧ splitDash L1.data.tail = splitDash L2.data.tail)) :
    n1 ++ "-field-" ++ f1 ++ L1 ≠ n2 ++ "-field-" ++ f2 ++ L2 := by
  intro he
  have hs : splitDash ((n1 ++ "-field-" ++ f1 ++ L1).data) =
      splitDash ((n2 ++ "-field-" ++ f2 ++ L2).data) := by rw [he]
  rw [splitDash_field_id n1 f1 hn1 hf1 L1 hL1,
      splitDash_field_id n2 f2 hn2 hf2 L2 hL2] at hs
  obtain ⟨ha, hs⟩ := List.cons.inj hs
  obtain ⟨-, hs⟩ := List.cons.inj hs
  obtain ⟨hb, hs⟩ := List.cons.inj hs
  exact h ⟨str_data_inj ha, str_data_inj hb, hs⟩

/-- Two plain node-scoped ids differ when the first segments of their
suffixes differ. -/
theorem plain_ids_ne_headseg {n1 n2 : String} (h1 : noHyphen n1) (h2 : noHyphen n2)
    (L1 L2 : String) (hL1 : L1.data.head? = some '-') (hL2 : L2.data.head? = some '-')
    (hT : (splitDash L1.data.tail).head? ≠ (splitDash L2.data.tail).head?) :
    n1 ++ L1 ≠ n2 ++ L2 :=
  plain_ids_ne h1 h2 L1 L2 hL1 hL2 (fun h => hT (by rw [h]))

/-- A plain node-scoped id never equals a fixed `workflow-` id when the
suffix head segments differ. -/
theorem plain_ne_fixedW {nid : String} (hn : noHyphen nid) (L W LW : String)
    (hW : W = "workflow" ++ LW) (hLW : LW.data.head? = some '-')
    (hL : L.data.head? = some '-')
    (hT : (splitDash L.data.tail).head? ≠ (splitDash LW.data.tail).head?) :
    nid ++ L ≠ W := by
  rw [hW]
  exact plain_ids_ne_headseg hn (by decide) L LW hL hLW hT

/-- A field-scoped id never equals a fixed `workflow-` id (their suffix
head segments are `field` versus the fixed check's head). -/
theorem field_ne_fixedW {nid fid : String} (hn : noHyphen nid) (hf : noHyphen fid)
    (Lf W LW : String) (hW : W = "workflow" ++ LW)
    (hLW : LW.data.head? = some '-') (hLf : Lf.data.head? = some '-')
    (hT : (splitDash LW.data.tail).head? ≠ some (("field" : String).data)) :
    nid ++ "-field-" ++ fid ++ Lf ≠ W := by
  rw [hW]
  exact field_ne_plain_ids hn (by decide) hf Lf LW hLf hLW hT

/-- Shape of every possible per-node validator id: either the node id plus
a plain suffix whose head segment is a validator check name, or the node id
plus a `-field-`-scoped suffix for one of the node's fields. -/
theorem mem_nodePossibleIds {n : Node} {x : String} (hx : x ∈ nodePossibleIds n) :
    (∃ L, x = n.id ++ L ∧ L.data.head? = some '-' ∧
      (splitDash L.data.tail).head? ∈ valHeads) ∨
    (∃ f ∈ n.data.fields.getD [], ∃ L, x = n.id ++ "-field-" ++ f.id ++ L ∧
      L.data.head? = some '-') := by
  unfold nodePossibleIds at hx
  split at hx
  · -- form
    rw [formPossibleIds] at hx
    rcases List.mem_append.mp hx with h | h
    · rcases List.mem_cons.mp h with rfl | h
      · exact Or.inl ⟨_, rfl, by decide, by decide⟩
      rcases List.mem_cons.mp h with rfl | h
      · exact Or.inl ⟨_, rfl, by decide, by decide⟩
      rcases List.mem_singleton.mp h with rfl
      exact Or.inl ⟨_, rfl, by decide, by decide⟩
    · obtain ⟨f, hf, hm⟩ := List.mem_bind.mp h
      refine Or.inr ⟨f, hf, ?_⟩
      rcases List.mem_cons.mp hm with rfl | hm
      · exact ⟨_, rfl, by decide⟩
      rcases List.mem_cons.mp hm with rfl | hm
      · exact ⟨_, rfl, by decide⟩
      rcases List.mem_cons.mp hm with rfl | hm
      · exact ⟨_, rfl, by decide⟩
      rcases List.mem_cons.mp hm with rfl | hm
      · exact ⟨_, rfl, by decide⟩
      rcases List.mem_singleton.mp hm with rfl
      exact ⟨_, rfl, by decide⟩
  · -- conditional
    rw [conditionalPossibleIds] at hx
    rcases List.mem_cons.mp hx with rfl | h
    · exact Or.inl ⟨_, rfl, by decide, by decide⟩
    rcases List.mem_cons.mp h with rfl | h
    · exact Or.inl ⟨_, rfl, by decide, by decide⟩
    rcases List.mem_cons.mp h with rfl | h
    · exact Or.inl ⟨_, rfl, by decide, by decide⟩
    rcases List.mem_cons.mp h with rfl | h
    · exact Or.inl ⟨_, rfl, by decide, by decide⟩
    rcases List.mem_singleton.mp h with rfl
    exact Or.inl ⟨_, rfl, by decide, by decide⟩
  · -- api
    rw [apiPossibleIds] at hx
    rcases List.mem_cons.mp hx with rfl | h
    · exact Or.inl ⟨_, rfl, by decide, by decide⟩
    rcases List.mem_cons.mp h with rfl | h
    · exact Or.inl ⟨_, rfl, by decide, by decide⟩
    rcases List.mem_singleton.mp h with rfl
    exact Or.inl ⟨_, rfl, by decide, by decide⟩
  · exact absurd hx (List.not_mem_nil x)

/-- The per-node possible-id list is duplicate-free for a node with a
hyphen-free id and hyphen-free, duplicate-free field ids. -/
theorem nodePossibleIds_nodup (n : Node) (hn : noHyphen n.id)
    (hf1 : ((n.data.fields.getD []).map (·.id)).Nodup)
    (hf2 : ∀ f ∈ n.data.fields.getD [], noHyphen f.id) :
    (nodePossibleIds n).Nodup := by
  unfold nodePossibleIds
  split
  · -- form
    rw [formPossibleIds]
    rw [List.nodup_append]
    refine ⟨?_, ?_, ?_⟩
    · simp only [List.nodup_cons, List.mem_cons, List.mem_singleton,
        List.not_mem_nil, not_or, List.nodup_nil, and_true, not_false_eq_true]
      repeat' apply And.intro
      all_goals first
        | exact plain_ids_ne hn hn _ _ (by decide) (by decide) (by decide)
        | trivial
    · rw [List.nodup_bind]
      constructor
      · intro f hf
        simp only [List.nodup_cons, List.mem_cons, List.mem_singleton,
          List.not_mem_nil, not_or, List.nodup_nil, and_true, not_false_eq_true]
        repeat' apply And.intro
        all_goals first
          | exact field_ids_ne hn hn (hf2 f hf) (hf2 f hf) _ _ (by decide) (by decide)
              (fun h => absurd h.2.2 (by decide))
          | trivial
      · have hpw : (n.data.fields.getD []).Pairwise (fun a b => a.id ≠ b.id) :=
          List.pairwise_map.mp hf1
        refine hpw.imp_of_mem ?_
        intro f g hfm hgm hne
        intro a haf hag
        simp only [List.mem_cons, List.mem_singleton, List.not_mem_nil,
          or_false] at haf hag
        rcases haf with rfl | rfl | rfl | rfl | rfl <;>
          rcases hag with h | h | h | h | h <;>
            exact field_ids_ne hn hn (hf2 f hfm) (hf2 g hgm) _ _ (by decide) (by decide)
              (fun hc => hne hc.2.1) h
    · intro a ha hb
      simp only [List.mem_cons, List.mem_singleton, List.not_mem_nil,
        or_false] at ha
      obtain ⟨f, hf, hm⟩ := List.mem_bind.mp hb
      simp only [List.mem_cons, List.mem_singleton, List.not_mem_nil,
        or_false] at hm
      rcases ha with rfl | rfl | rfl <;>
        rcases hm with h | h | h | h | h <;>
          exact (field_ne_plain_ids hn hn (hf2 f hf) _ _ (by decide) (by decide)
            (by decide)) h.symm
  · -- conditional
    rw [conditionalPossibleIds]
    simp only [List.nodup_cons, List.mem_cons, List.mem_singleton,
      List.not_mem_nil, not_or, List.nodup_nil, and_true, not_false_eq_true]
    repeat' apply And.intro
    all_goals first
      | exact plain_ids_ne hn hn _ _ (by decide) (by decide) (by decide)
      | trivial
  · -- api
    rw [apiPossibleIds]
    simp only [List.nodup_cons, List.mem_cons, List.mem_singleton,
      List.not_mem_nil, not_or, List.nodup_nil, and_true, not_false_eq_true]
    repeat' apply And.intro
    all_goals first
      | exact plain_ids_ne hn hn _ _ (by decide) (by decide) (by decide)
      | trivial
  · exact List.nodup_nil

/-- Every id `validateWorkflow` could possibly emit is distinct from every
other, for a graph with duplicate-free hyphen-free node ids and per-node
duplicate-free hyphen-free field ids. -/
theorem possibleErrorIds_nodup (nodes : List Node)
    (hnodup : (nodes.map (·.id)).Nodup)
    (hnh : ∀ n ∈ nodes, noHyphen n.id)
    (hfld : ∀ n ∈ nodes, ((n.data.fields.getD []).map (·.id)).Nodup ∧
      ∀ f ∈ n.data.fields.getD [], noHyphen f.id) :
    (possibleErrorIds nodes).Nodup := by
  have hPairNodes : nodes.Pairwise (fun a b => a.id ≠ b.id) :=
    List.pairwise_map.mp hnodup
  have hB1 : (nodes.bind nodePossibleIds).Nodup := by
    rw [List.nodup_bind]
    constructor
    · intro n hn
      exact nodePossibleIds_nodup n (hnh n hn) (hfld n hn).1 (hfld n hn).2
    · refine hPairNodes.imp_of_mem ?_
      intro a b ham hbm hne x hxa hxb
      rcases mem_nodePossibleIds hxa with ⟨L1, rfl, hL1, hH1⟩ | ⟨f1, hf1m, L1, rfl, hL1⟩ <;>
        rcases mem_nodePossibleIds hxb with ⟨L2, heq2, hL2, hH2⟩ | ⟨f2, hf2m, L2, heq2, hL2⟩
      · exact (plain_ids_ne_nid (hnh a ham) (hnh b hbm) hne L1 L2 hL1 hL2) heq2
      · exact (field_ne_plain_ids (hnh b hbm) (hnh a ham) ((hfld b hbm).2 f2 hf2m)
          L2 L1 hL2 hL1 (fun hc => absurd (hc ▸ hH1) (by decide))) heq2.symm
      · exact (field_ne_plain_ids (hnh a ham) (hnh b hbm) ((hfld a ham).2 f1 hf1m)
          L1 L2 hL1 hL2 (fun hc => absurd (hc ▸ hH2) (by decide))) heq2
      · exact (field_ids_ne (hnh a ham) (hnh b hbm) ((hfld a ham).2 f1 hf1m)
          ((hfld b hbm).2 f2 hf2m) L1 L2 hL1 hL2 (fun hc => hne hc.1)) heq2
  have hB3 : ((nodes.filter (fun n => n.type == "conditional")).bind (fun n =>
      [n.id ++ "-route-true-missing", n.id ++ "-route-false-missing"])).Nodup := by
    rw [List.nodup_bind]
    constructor
    · intro n hnf
      have hn := hnh n (List.mem_of_mem_filter hnf)
      simp only [List.nodup_cons, List.mem_singleton, List.not_mem_nil,
        not_false_eq_true, List.nodup_nil, and_true]
      exact plain_ids_ne hn hn _ _ (by decide) (by decide) (by decide)
    · refine (hPairNodes.sublist (List.filter_sublist _)).imp_of_mem ?_
      intro a b ham hbm hne x hxa hxb
      have hna := hnh a (List.mem_of_mem_filter ham)
      have hnb := hnh b (List.mem_of_mem_filter hbm)
      simp only [List.mem_cons, List.mem_singleton, List.not_mem_nil,
        or_false] at hxa hxb
      rcases hxa with rfl | rfl <;> rcases hxb with h | h <;>
        exact (plain_ids_ne_nid hna hnb hne _ _ (by decide) (by decide)) h
  have hM5 : (nodes.map (fun n => n.id ++ "-not-reachable")).Nodup := by
    have hinj := List.inj_on_of_nodup_map hnodup
    refine List.Nodup.map_on ?_ (List.Nodup.of_map _ hnodup)
    intro x hx y hy he
    by_cases hxy : x.id = y.id
    · exact hinj hx hy hxy
    · exact absurd he (plain_ids_ne_nid (hnh x hx) (hnh y hy) hxy _ _
        (by decide) (by decide))
  rw [possibleErrorIds, List.append_assoc, List.append_assoc, List.append_assoc]
  refine List.nodup_append.mpr ⟨hB1, ?_, ?_⟩
  · refine List.nodup_append.mpr ⟨by decide, ?_, ?_⟩
    · refine List.nodup_append.mpr ⟨hB3, ?_, ?_⟩
      · refine List.nodup_append.mpr ⟨by decide, hM5, ?_⟩
        intro x hx2 hx5
        obtain ⟨n, hn, hxeq⟩ := List.mem_map.mp hx5
        simp only [List.mem_cons, List.mem_singleton, List.not_mem_nil,
          or_false] at hx2
        rcases hx2 with rfl | rfl
        · exact (plain_ne_fixedW (hnh n hn) "-not-reachable" _ "-start-no-outgoing"
            (by decide) (by decide) (by decide) (by decide)) hxeq
        · exact (plain_ne_fixedW (hnh n hn) "-not-reachable" _ "-end-no-incoming"
            (by decide) (by decide) (by decide) (by decide)) hxeq
      · intro x hx3 hxr
        obtain ⟨n, hnf, hm⟩ := List.mem_bind.mp hx3
        have hn := hnh n (List.mem_of_mem_filter hnf)
        simp only [List.mem_cons, List.mem_singleton, List.not_mem_nil,
          or_false] at hm
        rcases List.mem_append.mp hxr with hx2 | hx5
        · simp only [List.mem_cons, List.mem_singleton, List.not_mem_nil,
            or_false] at hx2
          rcases hm with rfl | rfl <;> rcases hx2 with h | h
          · exact (plain_ne_fixedW hn "-route-true-missing" _ "-start-no-outgoing"
              (by decide) (by decide) (by decide) (by decide)) h
          · exact (plain_ne_fixedW hn "-route-true-missing" _ "-end-no-incoming"
              (by decide) (by decide) (by decide) (by decide)) h
          · exact (plain_ne_fixedW hn "-route-false-missing" _ "-start-no-outgoing"
              (by decide) (by decide) (by decide) (by decide)) h
          · exact (plain_ne_fixedW hn "-route-false-missing" _ "-end-no-incoming"
              (by decide) (by decide) (by decide) (by decide)) h
        · obtain ⟨m, hmm2, hmeq⟩ := List.mem_map.mp hx5
          rcases hm with rfl | rfl <;>
            exact (plain_ids_ne_headseg (hnh m hmm2) hn _ _ (by decide) (by decide)
              (by decide)) hmeq
    · intro x hx5f hxr
      rcases List.mem_append.mp hxr with hx3 | hxr2
      · obtain ⟨n, hnf, hm⟩ := List.mem_bind.mp hx3
        have hn := hnh n (List.mem_of_mem_filter hnf)
        simp only [List.mem_cons, List.mem_singleton, List.not_mem_nil,
          or_false] at hm hx5f
        rcases hm with rfl | rfl <;>
          rcases hx5f with h | h | h | h | h
        · exact (plain_ne_fixedW hn "-route-true-missing" _ "-no-work-nodes"
            (by decide) (by decide) (by decide) (by decide)) h
        · exact (plain_ne_fixedW hn "-route-true-missing" _ "-no-start"
            (by decide) (by decide) (by decide) (by decide)) h
        · exact (plain_ne_fixedW hn "-route-true-missing" _ "-multiple-starts"
            (by decide) (by decide) (by decide) (by decide)) h
        · exact (plain_ne_fixedW hn "-route-true-missing" _ "-no-end"
            (by decide) (by decide) (by decide) (by decide)) h
        · exact (plain_ne_fixedW hn "-route-true-missing" _ "-multiple-ends"
            (by decide) (by decide) (by decide) (by decide)) h
        · exact (plain_ne_fixedW hn "-route-false-missing" _ "-no-work-nodes"
            (by decide) (by decide) (by decide) (by decide)) h
        · exact (plain_ne_fixedW hn "-route-false-missing" _ "-no-start"
            (by decide) (by decide) (by decide) (by decide)) h
        · exact (plain_ne_fixedW hn "-route-false-missing" _ "-multiple-starts"
            (by decide) (by decide) (by decide) (by decide)) h
        · exact (plain_ne_fixedW hn "-route-false-missing" _ "-no-end"
            (by decide) (by decide) (by decide) (by decide)) h
        · exact (plain_ne_fixedW hn "-route-false-missing" _ "-multiple-ends"
            (by decide) (by decide) (by decide) (by decide)) h
      · rcases List.mem_append.mp hxr2 with hx2 | hx5
        · simp only [List.mem_cons, List.mem_singleton, List.not_mem_nil,
            or_false] at hx2 hx5f
          rcases hx5f with rfl | rfl | rfl | rfl | rfl <;>
            rcases hx2 with h | h <;> exact absurd h (by decide)
        · obtain ⟨m, hmm2, hmeq⟩ := List.mem_map.mp hx5
          simp only [List.mem_cons, List.mem_singleton, List.not_mem_nil,
            or_false] at hx5f
          rcases hx5f with rfl | rfl | rfl | rfl | rfl
          · exact (plain_ne_fixedW (hnh m hmm2) "-not-reachable" _ "-no-work-nodes"
              (by decide) (by decide) (by decide) (by decide)) hmeq
          · exact (plain_ne_fixedW (hnh m hmm2) "-not-reachable" _ "-no-start"
              (by decide) (by decide) (by decide) (by decide)) hmeq
          · exact (plain_ne_fixedW (hnh m hmm2) "-not-reachable" _ "-multiple-starts"
              (by decide) (by decide) (by decide) (by decide)) hmeq
          · exact (plain_ne_fixedW (hnh m hmm2) "-not-reachable" _ "-no-end"
              (by decide) (by decide) (by decide) (by decide)) hmeq
          · exact (plain_ne_fixedW (hnh m hmm2) "-not-reachable" _ "-multiple-ends"
              (by decide) (by decide) (by decide) (by decide)) hmeq
  · intro x hxB1 hxr
    obtain ⟨n, hn, hxn⟩ := List.mem_bind.mp hxB1
    rcases mem_nodePossibleIds hxn with ⟨L, rfl, hL, hH⟩ | ⟨f, hfm, L, rfl, hL⟩
    · rcases List.mem_append.mp hxr with h5 | hrest
      · simp only [List.mem_cons, List.mem_singleton, List.not_mem_nil,
          or_false] at h5
        rcases h5 with h | h | h | h | h
        · exact (plain_ne_fixedW (hnh n hn) L _ "-no-work-nodes" (by decide)
            (by decide) hL (fun hc => absurd (hc ▸ hH) (by decide))) h
        · exact (plain_ne_fixedW (hnh n hn) L _ "-no-start" (by decide)
            (by decide) hL (fun hc => absurd (hc ▸ hH) (by decide))) h
        · exact (plain_ne_fixedW (hnh n hn) L _ "-multiple-starts" (by decide)
            (by decide) hL (fun hc => absurd (hc ▸ hH) (by decide))) h
        · exact (plain_ne_fixedW (hnh n hn) L _ "-no-end" (by decide)
            (by decide) hL (fun hc => absurd (hc ▸ hH) (by decide))) h
        · exact (plain_ne_fixedW (hnh n hn) L _ "-multiple-ends" (by decide)
            (by decide) hL (fun hc => absurd (hc ▸ hH) (by decide))) h
      · rcases List.mem_append.mp hrest with h3 | hrest2
        · obtain ⟨m, hmf, hm⟩ := List.mem_bind.mp h3
          have hmn := hnh m (List.mem_of_mem_filter hmf)
          simp only [List.mem_cons, List.mem_singleton, List.not_mem_nil,
            or_false] at hm
          rcases hm with h | h <;>
            exact (plain_ids_ne_headseg (hnh n hn) hmn L _ hL (by decide)
              (fun hc => absurd (hc ▸ hH) (by decide))) h
        · rcases List.mem_append.mp hrest2 with h2 | h5m
          · simp only [List.mem_cons, List.mem_singleton, List.not_mem_nil,
              or_false] at h2
            rcases h2 with h | h
            · exact (plain_ne_fixedW (hnh n hn) L _ "-start-no-outgoing" (by decide)
                (by decide) hL (fun hc => absurd (hc ▸ hH) (by decide))) h
            · exact (plain_ne_fixedW (hnh n hn) L _ "-end-no-incoming" (by decide)
                (by decide) hL (fun hc => absurd (hc ▸ hH) (by decide))) h
          · obtain ⟨m, hmm2, hmeq⟩ := List.mem_map.mp h5m
            exact (plain_ids_ne_headseg (hnh m hmm2) (hnh n hn) _ L (by decide) hL
              (fun hc => absurd (hc.symm ▸ hH) (by decide))) hmeq
    · have hnn := hnh n hn
      have hff := (hfld n hn).2 f hfm
      rcases List.mem_append.mp hxr with h5 | hrest
      · simp only [List.mem_cons, List.mem_singleton, List.not_mem_nil,
          or_false] at h5
        rcases h5 with h | h | h | h | h
        · exact (field_ne_fixedW hnn hff L _ "-no-work-nodes" (by decide)
            (by decide) hL (by decide)) h
        · exact (field_ne_fixedW hnn hff L _ "-no-start" (by decide)
            (by decide) hL (by decide)) h
        · exact (field_ne_fixedW hnn hff L _ "-multiple-starts" (by decide)
            (by decide) hL (by decide)) h
        · exact (field_ne_fixedW hnn hff L _ "-no-end" (by decide)
            (by decide) hL (by decide)) h
        · exact (field_ne_fixedW hnn hff L _ "-multiple-ends" (by decide)
            (by decide) hL (by decide)) h
      · rcases List.mem_append.mp hrest with h3 | hrest2
        · obtain ⟨m, hmf, hm⟩ := List.mem_bind.mp h3
          have hmn := hnh m (List.mem_of_mem_filter hmf)
          simp only [List.mem_cons, List.mem_singleton, List.not_mem_nil,
            or_false] at hm
          rcases hm with h | h <;>
            exact (field_ne_plain_ids hnn hmn hff L _ hL (by decide) (by decide)) h
        · rcases List.mem_append.mp hrest2 with h2 | h5m
          · simp only [List.mem_cons, List.mem_singleton, List.not_mem_nil,
              or_false] at h2
            rcases h2 with h | h
            · exact (field_ne_fixedW hnn hff L _ "-start-no-outgoing" (by decide)
                (by decide) hL (by decide)) h
            · exact (field_ne_fixedW hnn hff L _ "-end-no-incoming" (by decide)
                (by decide) hL (by decide)) h
          · obtain ⟨m, hmm2, hmeq⟩ := List.mem_map.mp h5m
            exact (field_ne_plain_ids hnn (hnh m hmm2) hff L _ hL (by decide)
              (by decide)) hmeq.symm

theorem bind_sublist_bind {α β : Type} (l : List α) (f g : α → List β)
    (h : ∀ a ∈ l, List.Sublist (f a) (g a)) : List.Sublist (l.bind f) (l.bind g) := by
  induction l with
  | nil => exact List.nil_sublist _
  | cons a l ih =>
    exact List.Sublist.append (h a (List.mem_cons_self _ _))
      (ih (fun b hb => h b (List.mem_cons_of_mem _ hb)))

theorem validateFormField_ids_sublist (nid : String) (fields : List Field) : ∀ k,
    List.Sublist
    ((List.enumFrom k fields).bind
      (fun p => (validateFormField nid p.1 p.2).map (·.id)))
    (fields.bind (fun f =>
      [nid ++ "-field-" ++ f.id ++ "-name-required",
       nid ++ "-field-" ++ f.id ++ "-name-alphanumeric",
       nid ++ "-field-" ++ f.id ++ "-name-minLength",
       nid ++ "-field-" ++ f.id ++ "-label-required",
       nid ++ "-field-" ++ f.id ++ "-label-minLength"])) := by
  induction fields with
  | nil => intro k; exact List.nil_sublist _
  | cons f fs ih =>
    intro k
    show List.Sublist ((validateFormField nid k f).map (·.id) ++ _) (_ ++ _)
    refine List.Sublist.append ?_ (ih (k + 1))
    simp only [validateFormField, List.map_append, List.map_cons, List.map_nil]
    show List.Sublist (_ ++ _)
      ([nid ++ "-field-" ++ f.id ++ "-name-required",
        nid ++ "-field-" ++ f.id ++ "-name-alphanumeric",
        nid ++ "-field-" ++ f.id ++ "-name-minLength"] ++
       [nid ++ "-field-" ++ f.id ++ "-label-required",
        nid ++ "-field-" ++ f.id ++ "-label-minLength"])
    refine List.Sublist.append ?_ ?_ <;>
      split_ifs <;>
        first
          | exact List.nil_sublist _
          | (repeat first
              | exact List.nil_sublist _
              | apply List.Sublist.cons₂
              | apply List.Sublist.cons)

theorem validateFormNode_ids_sublist (node : Node) :
    List.Sublist ((validateFormNode node).map (·.id)) (formPossibleIds node) := by
  simp only [validateFormNode, formPossibleIds, List.map_append]
  show List.Sublist (_ ++ _)
    ([node.id ++ "-customName-required", node.id ++ "-customName-minLength"] ++
     ([node.id ++ "-fields-empty"] ++
      (node.data.fields.getD []).bind (fun f =>
        [node.id ++ "-field-" ++ f.id ++ "-name-required",
         node.id ++ "-field-" ++ f.id ++ "-name-alphanumeric",
         node.id ++ "-field-" ++ f.id ++ "-name-minLength",
         node.id ++ "-field-" ++ f.id ++ "-label-required",
         node.id ++ "-field-" ++ f.id ++ "-label-minLength"])))
  refine List.Sublist.append ?_ ?_
  · split_ifs <;>
      repeat first
        | exact List.nil_sublist _
        | apply List.Sublist.cons₂
        | apply List.Sublist.cons
  · show List.Sublist _ ([node.id ++ "-fields-empty"] ++ _)
    cases hfields : node.data.fields with
    | none =>
      simp only [hfields, Option.getD_none, List.map_cons, List.map_nil]
      exact List.sublist_append_left _ _
    | some fields =>
      simp only [hfields, Option.getD_some]
      split_ifs with hlen
      · simp only [List.map_cons, List.map_nil]
        exact List.sublist_append_left _ _
      · rw [List.map_bind]
        refine List.Sublist.cons _ ?_
        exact validateFormField_ids_sublist node.id fields 0

theorem validateConditionalNode_ids_sublist (node : Node) :
    List.Sublist ((validateConditionalNode node).map (·.id)) (conditionalPossibleIds node) := by
  simp only [validateConditionalNode, conditionalPossibleIds, List.map_append]
  split_ifs <;>
    simp only [List.map_cons, List.map_nil, List.append_nil, List.nil_append] <;>
      repeat first
        | exact List.nil_sublist _
        | apply List.Sublist.cons₂
        | apply List.Sublist.cons

theorem validateApiNode_ids_sublist (node : Node) :
    List.Sublist ((validateApiNode node).map (·.id)) (apiPossibleIds node) := by
  simp only [validateApiNode, apiPossibleIds, List.map_append]
  split_ifs <;>
    simp only [List.map_cons, List.map_nil, List.append_nil, List.nil_append] <;>
      repeat first
        | exact List.nil_sublist _
        | apply List.Sublist.cons₂
        | apply List.Sublist.cons

theorem conditionalRouteErrors_ids_sublist (edges : List Edge) (n : Node) :
    List.Sublist ((conditionalRouteErrors edges n).map (·.id))
      [n.id ++ "-route-true-missing", n.id ++ "-route-false-missing"] := by
  simp only [conditionalRouteErrors, List.map_append]
  split_ifs <;>
    simp only [List.map_cons, List.map_nil, List.append_nil, List.nil_append] <;>
      repeat first
        | exact List.nil_sublist _
        | apply List.Sublist.cons₂
        | apply List.Sublist.cons

/-- Every error id `validateWorkflow` emits occurs, in order, inside the
possible-id inventory of its graph. -/
theorem validateWorkflow_ids_sublist (nodes : List Node) (edges : List Edge) :
    List.Sublist ((validateWorkflow nodes edges).errors.map (·.id))
      (possibleErrorIds nodes) := by
  have h0 : (validateWorkflow nodes edges).errors =
      (nodes.bind fun node =>
        match node.type with
        | "form" => validateFormNode node
        | "conditional" => validateConditionalNode node
        | "api" => validateApiNode node
        | _ => []) ++ validateWorkflowStructure nodes edges := rfl
  rw [h0, List.map_append, possibleErrorIds, List.append_assoc, List.append_assoc,
    List.append_assoc]
  refine List.Sublist.append ?_ ?_
  · rw [List.map_bind]
    apply bind_sublist_bind
    intro n _
    show List.Sublist ((match n.type with
        | "form" => validateFormNode n
        | "conditional" => validateConditionalNode n
        | "api" => validateApiNode n
        | _ => ([] : List ValidationError)).map (fun e : ValidationError => e.id))
      (nodePossibleIds n)
    unfold nodePossibleIds
    split
    · exact validateFormNode_ids_sublist n
    · exact validateConditionalNode_ids_sublist n
    · exact validateApiNode_ids_sublist n
    · exact List.nil_sublist _
  · unfold validateWorkflowStructure
    simp only [List.map_append, List.append_assoc]
    have hW : List.Sublist ((workNodePresenceErrors nodes).map (·.id))
        ["workflow-no-work-nodes"] := by
      simp only [workNodePresenceErrors]
      split_ifs <;> simp
    have hSC : List.Sublist ((startCountErrors nodes).map (·.id))
        ["workflow-no-start", "workflow-multiple-starts"] := by
      simp only [startCountErrors]
      split_ifs <;>
        simp only [List.map_cons, List.map_nil] <;>
          repeat first
            | exact List.nil_sublist _
            | apply List.Sublist.cons₂
            | apply List.Sublist.cons
    have hEC : List.Sublist ((endCountErrors nodes).map (·.id))
        ["workflow-no-end", "workflow-multiple-ends"] := by
      simp only [endCountErrors]
      split_ifs <;>
        simp only [List.map_cons, List.map_nil] <;>
          repeat first
            | exact List.nil_sublist _
            | apply List.Sublist.cons₂
            | apply List.Sublist.cons
    have hRT : List.Sublist
        (((nodes.filter (fun n => n.type == "conditional")).bind
          (conditionalRouteErrors edges)).map (·.id))
        ((nodes.filter (fun n => n.type == "conditional")).bind (fun n =>
          [n.id ++ "-route-true-missing", n.id ++ "-route-false-missing"])) := by
      rw [List.map_bind]
      exact bind_sublist_bind _ _ _
        (fun n _ => conditionalRouteErrors_ids_sublist edges n)
    show List.Sublist _
      (["workflow-no-work-nodes"] ++
       (["workflow-no-start", "workflow-multiple-starts"] ++
        (["workflow-no-end", "workflow-multiple-ends"] ++
         (((nodes.filter (fun n => n.type == "conditional")).bind (fun n =>
             [n.id ++ "-route-true-missing", n.id ++ "-route-false-missing"])) ++
          (["workflow-start-no-outgoing", "workflow-end-no-incoming"] ++
           nodes.map (fun n => n.id ++ "-not-reachable"))))))
    refine List.Sublist.append hW (List.Sublist.append hSC
      (List.Sublist.append hEC (List.Sublist.append hRT ?_)))
    cases hs : nodes.filter (fun n => n.type == "start") with
    | nil => exact List.nil_sublist _
    | cons s stl =>
      cases stl with
      | cons s2 stl2 => exact List.nil_sublist _
      | nil =>
        cases he : nodes.filter (fun n => n.type == "end") with
        | nil => exact List.nil_sublist _
        | cons e etl =>
          cases etl with
          | cons e2 etl2 => exact List.nil_sublist _
          | nil =>
            show List.Sublist ((connectivityErrors nodes edges s e).map (·.id))
              (["workflow-start-no-outgoing", "workflow-end-no-incoming"] ++
                nodes.map (fun n => n.id ++ "-not-reachable"))
            simp only [connectivityErrors, List.map_append, List.append_assoc]
            have hSN : List.Sublist ((startNoOutgoingErrors nodes edges s).map (·.id))
                ["workflow-start-no-outgoing"] := by
              simp only [startNoOutgoingErrors]
              split_ifs <;> simp
            have hEN : List.Sublist ((endNoIncomingErrors nodes edges e).map (·.id))
                ["workflow-end-no-incoming"] := by
              simp only [endNoIncomingErrors]
              split_ifs <;> simp
            have hOR : List.Sublist ((orphanErrors nodes edges s).map (·.id))
                (nodes.map (fun n => n.id ++ "-not-reachable")) := by
              simp only [orphanErrors]
              rw [List.map_bind, List.map_eq_bind]
              apply bind_sublist_bind
              intro n _
              split_ifs <;> simp [mkNotReachableError]
            show List.Sublist _
              (["workflow-start-no-outgoing"] ++
               (["workflow-end-no-incoming"] ++
                nodes.map (fun n => n.id ++ "-not-reachable")))
            exact List.Sublist.append hSN (List.Sublist.append hEN hOR)

/-- C5, counterexample: node ids `"a"` and `"a-field-b"` are distinct and
each node's single field id is unique within it, yet the two blank-field
"name required" errors both get id `"a-field-b-field-c-name-required"`:
hyphen concatenation is not injective, so the claim fails as stated. -/
theorem validateWorkflow_id_collision :
    (c5CollisionNodes.map (·.id)).Nodup ∧
    (∀ n ∈ c5CollisionNodes, ((n.data.fields.getD []).map (·.id)).Nodup) ∧
    ¬ ((validateWorkflow c5CollisionNodes []).errors.map (·.id)).Nodup := by
  decide

/-- C5, amended: when node ids are additionally hyphen-free and field ids
are hyphen-free, the ids of the ValidationErrors returned by
`validateWorkflow` are pairwise distinct — each is the node id (or the
fixed `workflow` scope) joined with the field and check names, and with
hyphen-free components that derivation is injective. -/
theorem validateWorkflow_ids_nodup (nodes : List Node) (edges : List Edge)
    (hnodup : (nodes.map (·.id)).Nodup)
    (hnh : ∀ n ∈ nodes, noHyphen n.id)
    (hfld : ∀ n ∈ nodes, ((n.data.fields.getD []).map (·.id)).Nodup ∧
      ∀ f ∈ n.data.fields.getD [], noHyphen f.id) :
    ((validateWorkflow nodes edges).errors.map (·.id)).Nodup :=
  List.Nodup.sublist (validateWorkflow_ids_sublist nodes edges)
    (possibleErrorIds_nodup nodes hnodup hnh hfld)

/-- C5, witness for the amended theorem: on a graph with hyphen-free node
and field ids, the full error-id list is duplicate-free. -/
theorem validateWorkflow_ids_nodup_witness :
    ((validateWorkflow c5WitnessNodes []).errors.map (·.id)).Nodup :=
  validateWorkflow_ids_nodup c5WitnessNodes [] (by decide) (by decide) (by decide)

end Workflow
